import Mathlib

/-!
Verification of the hybrid content-search and embedding-backfill pipeline of
the markdown-site repository.

The TypeScript sources are shallowly embedded: strings are Lean `String`s
over their character lists (the repository's data is ASCII, and JavaScript
`.length`/`.indexOf`/`.slice` on ASCII strings coincide with character
counts), the JavaScript regex replaces used by the snippet extractor are
implemented as left-to-right scanners that mirror the exact backtracking
behaviour of each concrete pattern, and network / database effects are passed
in explicitly as oracles (lists of fetch outcomes, lookup functions).
-/

set_option autoImplicit false

namespace MarkdownSite

/-! ### JavaScript string primitives -/

/-- JavaScript's `\s` (and `String.prototype.trim`) on the ASCII range:
space, tab, line feed, carriage return, vertical tab, form feed. -/
def jsIsWs (c : Char) : Bool :=
  c = ' ' || c = '\t' || c = '\n' || c = '\r' || c = Char.ofNat 11 || c = Char.ofNat 12

/-- `String.prototype.trim` on a character list. -/
def jsTrimList (l : List Char) : List Char :=
  ((l.dropWhile jsIsWs).reverse.dropWhile jsIsWs).reverse

/-- `String.prototype.toLowerCase` (ASCII). -/
def toLowerStr (s : String) : String := String.mk (s.data.map Char.toLower)

/-- `String.prototype.indexOf`, helper carrying the current index. -/
def jsIndexOfAux (sub : List Char) : List Char → Nat → Option Nat
  | s, i =>
    if sub.isPrefixOf s then some i
    else
      match s with
      | [] => none
      | _ :: rest => jsIndexOfAux sub rest (i + 1)

/-- `s.indexOf(sub)`: index of the first occurrence, `none` for JS `-1`. -/
def jsIndexOf (s sub : String) : Option Nat := jsIndexOfAux sub.data s.data 0

/-- `s.includes(sub)` (equivalently `s.indexOf(sub) !== -1`). -/
def jsIncludes (s sub : String) : Bool := (jsIndexOf s sub).isSome

/-- `String.prototype.slice(a, b)` for non-negative indices. -/
def jsSlice (l : List Char) (a b : Nat) : List Char := (l.drop a).take (b - a)

/-- Length of the longest prefix satisfying `p`. -/
def countLeading (p : Char → Bool) : List Char → Nat
  | [] => 0
  | c :: cs => if p c then countLeading p cs + 1 else 0

/-! ### A generic scanner for the global regex replaces

`String.prototype.replace(/re/g, _)` scans left to right; at each position it
either rewrites a match (continuing after it) or moves on one character.  Each
concrete step function below receives the remaining input; a result
`some (emit, k)` means the pattern matched a prefix of length `k + 1`, to be
replaced by `emit`.  The scanner is driven by a fuel argument (one unit per
input character, always sufficient) so that it reduces by `rfl`/`decide`. -/

def replaceScanF (step : List Char → Option (List Char × Nat)) :
    Nat → List Char → List Char
  | _, [] => []
  | 0, l => l
  | fuel + 1, c :: cs =>
    match step (c :: cs) with
    | some (emit, k) => emit ++ replaceScanF step fuel (cs.drop k)
    | none => c :: replaceScanF step fuel cs

/-- Run a global regex replace over the whole input. -/
def runScan (step : List Char → Option (List Char × Nat)) (l : List Char) :
    List Char :=
  replaceScanF step l.length l

/-! ### The individual replace steps of `createSnippet` (convex/search.ts) -/

/-- `/#{1,6}\s/g → ""`: at a given position the pattern matches exactly when
the maximal run of `#` has length 1..6 and is followed by a whitespace
character (a longer run backtracks onto `#`, which is not `\s`). -/
def headerStep (l : List Char) : Option (List Char × Nat) :=
  let n := countLeading (· = '#') l
  if 1 ≤ n ∧ n ≤ 6 then
    match l.drop n with
    | c :: _ => if jsIsWs c then some ([], n) else none
    | [] => none
  else none

/-- `/\*\*([^*]+)\*\*/g → "$1"`. -/
def boldStep (l : List Char) : Option (List Char × Nat) :=
  match l with
  | '*' :: '*' :: t =>
    let r := t.takeWhile (· ≠ '*')
    if r.isEmpty then none
    else
      match t.drop r.length with
      | '*' :: '*' :: _ => some (r, r.length + 3)
      | _ => none
  | _ => none

/-- `/\*([^*]+)\*/g → "$1"`. -/
def italicStep (l : List Char) : Option (List Char × Nat) :=
  match l with
  | '*' :: t =>
    let r := t.takeWhile (· ≠ '*')
    if r.isEmpty then none
    else
      match t.drop r.length with
      | '*' :: _ => some (r, r.length + 1)
      | _ => none
  | _ => none

/-- ``/`([^`]+)`/g → "$1"``. -/
def inlineCodeStep (l : List Char) : Option (List Char × Nat) :=
  match l with
  | '`' :: t =>
    let r := t.takeWhile (· ≠ '`')
    if r.isEmpty then none
    else
      match t.drop r.length with
      | '`' :: _ => some (r, r.length + 1)
      | _ => none
  | _ => none

/-- Offset of the first occurrence of three consecutive backticks. -/
def findTriple : List Char → Option Nat
  | '`' :: '`' :: '`' :: _ => some 0
  | _ :: rest => (findTriple rest).map (· + 1)
  | [] => none

/-- ``/```[\s\S]*?```/g → ""``: lazy body, so the match ends at the first
closing triple backtick. -/
def codeBlockStep (l : List Char) : Option (List Char × Nat) :=
  match l with
  | '`' :: '`' :: '`' :: t =>
    match findTriple t with
    | some j => some ([], j + 5)
    | none => none
  | _ => none

/-- `/\[([^\]]+)\]\(([^)]+)\)/g → "$1"` (links replaced by their label). -/
def linkStep (l : List Char) : Option (List Char × Nat) :=
  match l with
  | '[' :: t =>
    let lbl := t.takeWhile (· ≠ ']')
    if lbl.isEmpty then none
    else
      match t.drop lbl.length with
      | ']' :: '(' :: u =>
        let url := u.takeWhile (· ≠ ')')
        if url.isEmpty then none
        else
          match u.drop url.length with
          | ')' :: _ => some (lbl, lbl.length + url.length + 3)
          | _ => none
      | _ => none
  | _ => none

/-- `/!\[([^\]]*)\]\(([^)]+)\)/g → ""` (images removed entirely). -/
def imageStep (l : List Char) : Option (List Char × Nat) :=
  match l with
  | '!' :: '[' :: t =>
    let alt := t.takeWhile (· ≠ ']')
    match t.drop alt.length with
    | ']' :: '(' :: u =>
      let url := u.takeWhile (· ≠ ')')
      if url.isEmpty then none
      else
        match u.drop url.length with
        | ')' :: _ => some ([], alt.length + url.length + 4)
        | _ => none
    | _ => none
  | _ => none

/-- `/\n+/g → " "`. -/
def nlStep (l : List Char) : Option (List Char × Nat) :=
  match l with
  | '\n' :: t => some ([' '], countLeading (· = '\n') t)
  | _ => none

/-- `/\s+/g → " "`. -/
def wsStep (l : List Char) : Option (List Char × Nat) :=
  match l with
  | c :: t => if jsIsWs c then some ([' '], countLeading jsIsWs t) else none
  | [] => none

/-- `/\s+/g → "-"` (used by heading-id slugification). -/
def wsDashStep (l : List Char) : Option (List Char × Nat) :=
  match l with
  | c :: t => if jsIsWs c then some (['-'], countLeading jsIsWs t) else none
  | [] => none

/-- Hyphen runs collapsed to a single hyphen (the `-+` global replace). -/
def dashStep (l : List Char) : Option (List Char × Nat) :=
  match l with
  | '-' :: t => some (['-'], countLeading (· = '-') t)
  | _ => none

/-- The markdown-stripping chain of `createSnippet` (convex/search.ts lines
334-344 and the identical copy in convex/semanticSearch.ts): headers, bold,
italic, inline code, code blocks, links, images, newline runs to a space,
whitespace runs to a space, trim — applied in exactly that order. -/
def cleanContent (content : String) : String :=
  String.mk (jsTrimList (runScan wsStep (runScan nlStep (runScan imageStep
    (runScan linkStep (runScan codeBlockStep (runScan inlineCodeStep
      (runScan italicStep (runScan boldStep (runScan headerStep content.data))))))))))

/-! ### Heading anchors (convex/search.ts `generateSlug`, `findNearestHeading`) -/

/-- Characters kept by `replace(/[^a-z0-9\s-]/g, "")`. -/
def slugKeep (c : Char) : Bool :=
  ('a' ≤ c && c ≤ 'z') || ('0' ≤ c && c ≤ '9') || jsIsWs c || c = '-'

/-- `generateSlug`: lower-case, strip everything but `[a-z0-9\s-]`, collapse
whitespace runs to `-`, collapse `-` runs, then `String.prototype.trim()`
(which trims whitespace — after whitespace was replaced by `-`, a no-op). -/
def generateSlug (text : String) : String :=
  String.mk (jsTrimList (runScan dashStep (runScan wsDashStep
    ((text.data.map Char.toLower).filter slugKeep))))

/-- The per-line heading test `line.match(/^(#{1,6})\s+(.+)$/)`, returning the
trimmed captured text.  `.` does not match CR, `$` only matches at the very
end, and `\s+` is greedy but backtracks one character when the remainder of
the line is all whitespace, so the capture trims to the empty string there. -/
def headingTextOfLine (line : String) : Option String :=
  let l := line.data
  let n := countLeading (· = '#') l
  if 1 ≤ n ∧ n ≤ 6 then
    let rest := l.drop n
    let a := rest.takeWhile jsIsWs
    let b := rest.drop a.length
    if a.isEmpty then none
    else if b.isEmpty then
      if 2 ≤ rest.length ∧ rest.getLast? ≠ some '\r' then some "" else none
    else if b.contains '\r' then none
    else some (String.mk (jsTrimList b))
  else none

/-- `String.prototype.split(sep)` for a one-character separator (keeps
empty segments, as JavaScript does). -/
def splitOnChar (sep : Char) : List Char → List (List Char)
  | [] => [[]]
  | c :: cs =>
    match splitOnChar sep cs with
    | [] => [[]]
    | l :: ls => if c = sep then [] :: l :: ls else (c :: l) :: ls

structure Heading where
  text : String
  position : Nat
  id : String
deriving DecidableEq

/-- The heading-collection loop of `findNearestHeading`: scan the lines,
tracking the running character offset of each line start. -/
def headingsOfAux : List String → Nat → List Heading
  | [], _ => []
  | line :: rest, pos =>
    let tail := headingsOfAux rest (pos + line.length + 1)
    match headingTextOfLine line with
    | some t => { text := t, position := pos, id := generateSlug t } :: tail
    | none => tail

def headingsOf (content : String) : List Heading :=
  headingsOfAux ((splitOnChar '\n' content.data).map String.mk) 0

/-- The selection loop of `findNearestHeading`: keep the last heading whose
position is `≤ matchPosition`, breaking at the first later one. -/
def nearestLoop (matchPosition : Nat) : List Heading → Option Heading → Option Heading
  | [], acc => acc
  | h :: rest, acc =>
    if h.position ≤ matchPosition then nearestLoop matchPosition rest (some h) else acc

/-- `findNearestHeading` — note the trailing `nearestHeading?.id || null`,
which maps an empty slug to `null`. -/
def findNearestHeading (content : String) (matchPosition : Nat) : Option String :=
  match nearestLoop matchPosition (headingsOf content) none with
  | some h => if h.id = "" then none else some h.id
  | none => none

structure SnippetResult where
  snippet : String
  anchor : Option String
deriving DecidableEq

/-- `createSnippet(content, searchTerm, maxLength)` from convex/search.ts. -/
def createSnippet (content searchTerm : String) (maxLength : Nat) : SnippetResult :=
  let lowerSearchTerm := toLowerStr searchTerm
  let anchor :=
    match jsIndexOf (toLowerStr content) lowerSearchTerm with
    | some i => findNearestHeading content i
    | none => none
  let clean := cleanContent content
  match jsIndexOf (toLowerStr clean) lowerSearchTerm with
  | none =>
    { snippet := String.mk (jsSlice clean.data 0 maxLength) ++
        (if maxLength < clean.length then "..." else "")
      anchor := none }
  | some index =>
    let start := index - maxLength / 3
    let stop := min clean.length (start + maxLength)
    let core := String.mk (jsSlice clean.data start stop)
    let withPre := if 0 < start then "..." ++ core else core
    let withPost := if stop < clean.length then withPre ++ "..." else withPre
    { snippet := withPost, anchor := anchor }

/-! ### Content Gateway Client (convex/embeddings.ts `fetchContentFromIPFS`,
identical copy in the node semanticSearch action)

The network is an oracle: `net` lists the outcomes of the successive `fetch`
calls the function performs (at most three).  The returned trace records the
URL of every fetch actually made, in order. -/

inductive FetchOutcome where
  | success (body : String)
  | httpError (status : Nat) (statusText : String)
  | throws (msg : String)
deriving DecidableEq

def publicGatewayBase : String := "https://gateway.pinata.cloud"

/-- `pre.data.isPrefixOf s.data`, i.e. JavaScript `s.startsWith(pre)`. -/
def strStartsWith (s pre : String) : Bool := pre.data.isPrefixOf s.data

/-- `getIPFSGatewayUrl` with `PINATA_GATEWAY_URL` passed explicitly. -/
def getIPFSGatewayUrl (pinataGatewayUrl : Option String) : String :=
  match pinataGatewayUrl with
  | some g =>
    if strStartsWith g "http://" || strStartsWith g "https://" then g
    else "https://" ++ g
  | none => publicGatewayBase

/-- Outcome of the `i`-th `fetch` performed during one call. -/
def nthOutcome (net : List FetchOutcome) (i : Nat) : FetchOutcome :=
  net.getD i (FetchOutcome.throws "fetch failed")

def isSuccess : FetchOutcome → Bool
  | FetchOutcome.success _ => true
  | _ => false

def fetchFailMsg (status : Nat) (statusText : String) : String :=
  "Failed to fetch content from IPFS: " ++ toString status ++ " " ++ statusText

/-- The catch-block rethrow `new Error("Failed to fetch content from IPFS: "
+ error.message)`. -/
def wrapFetchErr (m : String) : String := "Failed to fetch content from IPFS: " ++ m

def gatewayUrlOf (env : Option String) (cid : String) : String :=
  getIPFSGatewayUrl env ++ "/ipfs/" ++ cid

def publicGatewayUrlOf (cid : String) : String := publicGatewayBase ++ "/ipfs/" ++ cid

/-- The catch block: if the configured gateway differs from the public one,
try the public gateway once more; otherwise (or if that also fails) rethrow
the caught error wrapped. -/
def fetchCatch (env : Option String) (cid : String) (net : List FetchOutcome)
    (idx : Nat) (errMsg : String) (trace : List String) :
    Except String String × List String :=
  if getIPFSGatewayUrl env ≠ publicGatewayBase then
    match nthOutcome net idx with
    | FetchOutcome.success b => (Except.ok b, trace ++ [publicGatewayUrlOf cid])
    | _ => (Except.error (wrapFetchErr errMsg), trace ++ [publicGatewayUrlOf cid])
  else (Except.error (wrapFetchErr errMsg), trace)

/-- `fetchContentFromIPFS(cid)` (convex/embeddings.ts lines 25-81).  Inside
the `try`, a non-ok primary response with status 403/401/429 triggers an
immediate fetch of the public gateway URL — with no check that the primary
differs from it; every other failure is thrown and lands in the catch block
(`fetchCatch`), which retries the public gateway only when the configured
gateway differs from it and otherwise rethrows. -/
def fetchContentFromIPFS (env : Option String) (cid : String)
    (net : List FetchOutcome) : Except String String × List String :=
  if cid = "" then (Except.error "CID is required to fetch content from IPFS", [])
  else
    match nthOutcome net 0 with
    | FetchOutcome.success b => (Except.ok b, [gatewayUrlOf env cid])
    | FetchOutcome.httpError s st =>
      if s = 403 ∨ s = 401 ∨ s = 429 then
        match nthOutcome net 1 with
        | FetchOutcome.success b =>
          (Except.ok b, [gatewayUrlOf env cid, publicGatewayUrlOf cid])
        | FetchOutcome.httpError s2 st2 =>
          fetchCatch env cid net 2 (fetchFailMsg s2 st2)
            [gatewayUrlOf env cid, publicGatewayUrlOf cid]
        | FetchOutcome.throws m2 =>
          fetchCatch env cid net 2 m2 [gatewayUrlOf env cid, publicGatewayUrlOf cid]
      else fetchCatch env cid net 1 (fetchFailMsg s st) [gatewayUrlOf env cid]
    | FetchOutcome.throws m => fetchCatch env cid net 1 m [gatewayUrlOf env cid]

/-! ### Whitespace discipline of the collapse pass, for idempotence -/

/-- After the whitespace-collapse pass every whitespace character is a
single `' '` with no whitespace character right after it. -/
def WsFlat (l : List Char) : Prop :=
  (∀ c ∈ l, jsIsWs c = true → c = ' ') ∧
  List.Chain' (fun a b => jsIsWs a = false ∨ jsIsWs b = false) l

/-- Every character is outside the marker alphabet of the first seven
replace passes. -/
def markerFree (l : List Char) : Bool :=
  l.all fun c => !(c = '#' || c = '*' || c = '`' || c = '[' || c = '!')

/-- The anchor selection as a pure function of the heading list: the last
heading at or before the match offset, with an empty slug mapped to `none`
(the code's `nearestHeading?.id || null`). -/
def nearestHeadingSpec (hs : List Heading) (i : Nat) : Option String :=
  match (hs.filter (fun hd => hd.position ≤ i)).getLast? with
  | some hd => if hd.id = "" then none else some hd.id
  | none => none

/-- The heading-id slugification as C3 describes it: identical to
`generateSlug` except that the final step trims leading and trailing
hyphens instead of whitespace. -/
def claimedSlug (text : String) : String :=
  let s := runScan dashStep (runScan wsDashStep
    ((text.data.map Char.toLower).filter slugKeep))
  String.mk (((s.dropWhile (· = '-')).reverse.dropWhile (· = '-')).reverse)

/-! ### Hybrid keyword search (convex/search.ts `searchTitleOnly` / `search`)

The reactive store and the network are oracles: the two title-index queries
are passed in as the lists they returned, `getAllPosts`/`getAllPages` as
lists, `getPostBySlug`/`getPageBySlug` as lookup functions, and the IPFS
fetch as a partial function (`none` models a thrown fetch error). -/

structure Post where
  id : String
  slug : String
  title : String
  description : Option String
  contentCid : String
  published : Bool
  unlisted : Bool
deriving DecidableEq

structure Page where
  id : String
  slug : String
  title : String
  excerpt : Option String
  contentCid : String
  published : Bool
deriving DecidableEq

inductive DocKind where
  | post
  | page
deriving DecidableEq

structure SearchResult where
  id : String
  kind : DocKind
  slug : String
  title : String
  description : Option String
  snippet : String
  anchor : Option String
deriving DecidableEq

/-- `post.description ? description.slice(0,120) + (longer ? "..." : "") : ""`. -/
def descSnippet (d : Option String) : String :=
  match d with
  | some s =>
    if s = "" then ""
    else String.mk (jsSlice s.data 0 120) ++ (if 120 < s.length then "..." else "")
  | none => ""

/-- `page.excerpt ? excerpt.slice(0,120) + (longer ? "..." : "") : page.title`. -/
def excerptSnippet (e : Option String) (title : String) : String :=
  match e with
  | some s =>
    if s = "" then title
    else String.mk (jsSlice s.data 0 120) ++ (if 120 < s.length then "..." else "")
  | none => title

def mkTitlePostResult (p : Post) : SearchResult :=
  { id := p.id, kind := DocKind.post, slug := p.slug, title := p.title,
    description := p.description, snippet := descSnippet p.description,
    anchor := none }

def mkTitlePageResult (pg : Page) : SearchResult :=
  { id := pg.id, kind := DocKind.page, slug := pg.slug, title := pg.title,
    description := none, snippet := excerptSnippet pg.excerpt pg.title,
    anchor := none }

/-- The post-processing loop of `searchTitleOnly` over the posts returned by
the title index: dedupe on `_id` (adding to the seen set *before* the
unlisted check), skip `unlisted`, push a description-based result. -/
def titlePostsLoop : List Post → List SearchResult × List String →
    List SearchResult × List String
  | [], acc => acc
  | p :: rest, (results, seen) =>
    if seen.contains p.id then titlePostsLoop rest (results, seen)
    else if p.unlisted then titlePostsLoop rest (results, p.id :: seen)
    else titlePostsLoop rest (results ++ [mkTitlePostResult p], p.id :: seen)

/-- The page loop of `searchTitleOnly` (pages have no unlisted flag). -/
def titlePagesLoop : List Page → List SearchResult × List String →
    List SearchResult × List String
  | [], acc => acc
  | pg :: rest, (results, seen) =>
    if seen.contains pg.id then titlePagesLoop rest (results, seen)
    else titlePagesLoop rest (results ++ [mkTitlePageResult pg], pg.id :: seen)

def titleMatches (queryLower : String) (r : SearchResult) : Bool :=
  jsIncludes (toLowerStr r.title) queryLower

/-- `results.sort((a, b) => ...)` with the two-valued title-match key:
JavaScript's sort is stable, and a stable sort on a two-valued key is
exactly "matching results first, each side in retrieval order". -/
def sortByTitleMatch (queryLower : String) (rs : List SearchResult) :
    List SearchResult :=
  rs.filter (titleMatches queryLower) ++
    rs.filter (fun r => !(titleMatches queryLower r))

def searchTitleOnly (query : String) (postsByTitle : List Post)
    (pagesByTitle : List Page) : List SearchResult :=
  if jsTrimList query.data = [] then []
  else
    (sortByTitleMatch (toLowerStr query)
      ((titlePostsLoop postsByTitle ([], [])).1 ++
        (titlePagesLoop pagesByTitle ([], [])).1)).take 15

/-- Maximal whitespace-free fields of a string (accumulator reversed on
emit).  JavaScript `split(/\s+/)` can additionally emit empty strings at the
edges, but the caller filters on length > 2, so the two agree after it. -/
def wsFieldsAux : List Char → List Char → List (List Char)
  | [], cur => if cur.isEmpty then [] else [cur.reverse]
  | c :: cs, cur =>
    if jsIsWs c then
      if cur.isEmpty then wsFieldsAux cs [] else cur.reverse :: wsFieldsAux cs []
    else wsFieldsAux cs (c :: cur)

/-- `query.toLowerCase().split(/\s+/).filter(t => t.length > 2)`. -/
def searchTerms (query : String) : List String :=
  ((wsFieldsAux (toLowerStr query).data []).map String.mk).filter
    (fun t => 2 < t.length)

/-- The content-search loop of `search` over all posts: skip documents
already added or unlisted, fetch the body (a thrown fetch is caught and the
post skipped), match on the whole lower-cased query or any token of length
> 2, and push a `createSnippet` result (`anchor || undefined` maps an empty
anchor to none). -/
def contentPostLoop (query queryLower : String) (terms : List String)
    (lookupPost : String → Option Post) (ipfs : String → Option String) :
    List Post → List SearchResult × List String →
    List SearchResult × List String
  | [], acc => acc
  | p :: rest, (results, added) =>
    if added.contains p.id || p.unlisted then
      contentPostLoop query queryLower terms lookupPost ipfs rest (results, added)
    else
      match lookupPost p.slug with
      | none => contentPostLoop query queryLower terms lookupPost ipfs rest (results, added)
      | some fp =>
        if fp.contentCid = "" then
          contentPostLoop query queryLower terms lookupPost ipfs rest (results, added)
        else
          match ipfs fp.contentCid with
          | none => contentPostLoop query queryLower terms lookupPost ipfs rest (results, added)
          | some content =>
            if jsIncludes (toLowerStr content) queryLower ||
                terms.any (fun t => jsIncludes (toLowerStr content) t) then
              let sr : SearchResult :=
                { id := p.id, kind := DocKind.post, slug := p.slug,
                  title := p.title, description := p.description,
                  snippet := (createSnippet content query 150).snippet,
                  anchor := (match (createSnippet content query 150).anchor with
                    | some a => if a = "" then none else some a
                    | none => none) }
              contentPostLoop query queryLower terms lookupPost ipfs rest
                (results ++ [sr], p.id :: added)
            else contentPostLoop query queryLower terms lookupPost ipfs rest (results, added)

/-- The content-search loop of `search` over all pages (no unlisted flag). -/
def contentPageLoop (query queryLower : String) (terms : List String)
    (lookupPage : String → Option Page) (ipfs : String → Option String) :
    List Page → List SearchResult × List String →
    List SearchResult × List String
  | [], acc => acc
  | pg :: rest, (results, added) =>
    if added.contains pg.id then
      contentPageLoop query queryLower terms lookupPage ipfs rest (results, added)
    else
      match lookupPage pg.slug with
      | none => contentPageLoop query queryLower terms lookupPage ipfs rest (results, added)
      | some fp =>
        if fp.contentCid = "" then
          contentPageLoop query queryLower terms lookupPage ipfs rest (results, added)
        else
          match ipfs fp.contentCid with
          | none => contentPageLoop query queryLower terms lookupPage ipfs rest (results, added)
          | some content =>
            if jsIncludes (toLowerStr content) queryLower ||
                terms.any (fun t => jsIncludes (toLowerStr content) t) then
              let sr : SearchResult :=
                { id := pg.id, kind := DocKind.page, slug := pg.slug,
                  title := pg.title, description := none,
                  snippet := (createSnippet content query 150).snippet,
                  anchor := (match (createSnippet content query 150).anchor with
                    | some a => if a = "" then none else some a
                    | none => none) }
              contentPageLoop query queryLower terms lookupPage ipfs rest
                (results ++ [sr], pg.id :: added)
            else contentPageLoop query queryLower terms lookupPage ipfs rest (results, added)

/-- The `search` action (convex/search.ts lines 142-274). -/
def search (query : String) (postsByTitle : List Post) (pagesByTitle : List Page)
    (allPosts : List Post) (allPages : List Page)
    (lookupPost : String → Option Post) (lookupPage : String → Option Page)
    (ipfs : String → Option String) : List SearchResult :=
  if jsTrimList query.data = [] then []
  else
    let titleResults := searchTitleOnly query postsByTitle pagesByTitle
    let step1 := contentPostLoop query (toLowerStr query) (searchTerms query)
      lookupPost ipfs allPosts (titleResults, titleResults.map (fun r => r.id))
    let step2 := contentPageLoop query (toLowerStr query) (searchTerms query)
      lookupPage ipfs allPages (step1.1, step1.2)
    (sortByTitleMatch (toLowerStr query) step2.1).take 15

/-- Post provenance: a post-kind result stems from a non-unlisted post of
the title-index answer or of the full post list. -/
def GoodPost (PT AP : List Post) (r : SearchResult) : Prop :=
  r.kind = DocKind.post →
    ∃ p, (p ∈ PT ∨ p ∈ AP) ∧ p.unlisted = false ∧ r.id = p.id ∧ r.title = p.title

def c5PostA : Post :=
  { id := "p1", slug := "intro-to-caching", title := "Intro to Caching",
    description := some "About caches", contentCid := "cid1",
    published := true, unlisted := false }

def c5PostB : Post :=
  { id := "p2", slug := "deep-dive-replication", title := "Deep Dive: Replication",
    description := none, contentCid := "cid2", published := true, unlisted := false }

def c5PostU : Post :=
  { id := "p3", slug := "hidden", title := "Hidden Note", description := none,
    contentCid := "cid3", published := true, unlisted := true }

def c5Lookup : String → Option Post := fun s =>
  if s = "intro-to-caching" then some c5PostA
  else if s = "deep-dive-replication" then some c5PostB
  else if s = "hidden" then some c5PostU
  else none

def c5Ipfs : String → Option String := fun c =>
  if c = "cid2" then some "how we cache data across replicas"
  else if c = "cid3" then some "the cache secret" else none

def c5ResultB : SearchResult :=
  { id := "p2", kind := DocKind.post, slug := "deep-dive-replication",
    title := "Deep Dive: Replication", description := none,
    snippet := "how we cache data across replicas", anchor := none }

/-! ### Semantic search (convex/semanticSearch.ts) and the embedding
provider (convex/embeddings.ts `generateEmbedding`)

The HTTP layer is an oracle: the provider call is a function from the
request text to `(response.ok, parsed JSON body, error text)`; the vector
index results and the documents the internal queries return are lists. -/

inductive Json where
  | null
  | bool (b : Bool)
  | num (q : Int)
  | str (s : String)
  | arr (elts : List Json)
  | obj (fields : List (String × Json))

/-- JavaScript truthiness of an optional environment string (`!!s`): unset
and empty are falsy. -/
def jsTruthyStr : Option String → Bool
  | none => false
  | some s => s != ""

/-- `isSemanticSearchAvailable`: `!!process.env.HUGGINGFACE_API_KEY`. -/
def isSemanticSearchAvailable (apiKey : Option String) : Bool :=
  jsTruthyStr apiKey

/-- `e[0]` on a JSON value (string/number indexing never yields an array,
which is all the caller checks). -/
def jsonIdx0 : Json → Option Json
  | Json.arr (x :: _) => some x
  | Json.obj fields => fields.lookup "0"
  | _ => none

/-- Property access `e.k`: `undefined` (none) except on objects. -/
def jsonField : Json → String → Option Json
  | Json.obj fields, k => fields.lookup k
  | _, _ => none

def jsTruthyJson : Json → Bool
  | Json.null => false
  | Json.bool b => b
  | Json.num q => q != 0
  | Json.str s => s != ""
  | Json.arr _ => true
  | Json.obj _ => true

/-- The response unwrap of `semanticSearch`: a bare array is taken as-is; a
nested `[[..]]` or `{embeddings: [[..]]}` is unwrapped; anything else logs
"Invalid embedding response format" and the action returns `[]` (`ok none`
here).  A `null` body throws a TypeError at `responseData[0]`. -/
def extractQueryEmbedding (responseData : Json) : Except String (Option (List Json)) :=
  match responseData with
  | Json.arr l => Except.ok (some l)
  | Json.null => Except.error "TypeError: cannot index null"
  | _ =>
    Except.ok
      (match jsonIdx0 responseData with
      | some (Json.arr l0) => some l0
      | _ =>
        match jsonField responseData "embeddings" with
        | some e =>
          if jsTruthyJson e then
            match jsonIdx0 e with
            | some (Json.arr l) => some l
            | _ => none
          else none
        | none => none)

structure SemPost where
  id : String
  slug : String
  title : String
  description : String
  contentCid : String
  unlisted : Bool

structure SemPage where
  id : String
  slug : String
  title : String
  contentCid : String

structure SemResult where
  id : String
  kind : DocKind
  slug : String
  title : String
  description : Option String
  snippet : String
  score : Rat

def mkSemPostResult (p : SemPost) (score : Rat) : SemResult :=
  { id := p.id, kind := DocKind.post, slug := p.slug, title := p.title,
    description := some p.description,
    snippet := String.mk (jsSlice p.description.data 0 120) ++
      (if 120 < p.description.length then "..." else ""),
    score := score }

def mkSemPageResult (pg : SemPage) (score : Rat) : SemResult :=
  { id := pg.id, kind := DocKind.page, slug := pg.slug, title := pg.title,
    description := none, snippet := pg.title, score := score }

/-- `results.sort((a, b) => b.score - a.score)`: a stable descending sort —
insert after existing entries of equal or higher score. -/
def insertByScoreDesc (x : SemResult) : List SemResult → List SemResult
  | [] => [x]
  | y :: ys => if x.score > y.score then x :: y :: ys else y :: insertByScoreDesc x ys

def sortByScoreDesc (rs : List SemResult) : List SemResult :=
  rs.foldr insertByScoreDesc []

/-- The `semanticSearch` action (convex/semanticSearch.ts lines 23-175). -/
def semanticSearch (apiKey : Option String) (query : String) (respOk : Bool)
    (respBody : Json) (postResults pageResults : List (String × Rat))
    (posts : List SemPost) (pages : List SemPage) :
    Except String (List SemResult) :=
  if jsTrimList query.data = [] then Except.ok []
  else if jsTruthyStr apiKey = false then Except.ok []
  else if respOk = false then Except.ok []
  else
    match extractQueryEmbedding respBody with
    | Except.error m => Except.error m
    | Except.ok none => Except.ok []
    | Except.ok (some emb) =>
      if emb.isEmpty then Except.ok []
      else
        let postRes := postResults.foldl (fun acc pr =>
          match posts.find? (fun p => p.id == pr.1) with
          | some p => if p.unlisted = false then acc ++ [mkSemPostResult p pr.2] else acc
          | none => acc) []
        let pageRes := pageResults.foldl (fun acc pr =>
          match pages.find? (fun pg => pg.id == pr.1) with
          | some pg => acc ++ [mkSemPageResult pg pr.2]
          | none => acc) []
        Except.ok ((sortByScoreDesc (postRes ++ pageRes)).take 15)

/-- `generateEmbedding` internal action (convex/embeddings.ts lines
334-372): throws without a credential; truncates the input to 2000
characters before calling the provider; throws on a non-ok response; then
accepts the parsed body iff it is a non-empty array — element types and
dimensionality are not inspected, and the raw array is returned
(`embedding as number[]`). -/
def generateEmbedding (apiKey : Option String) (text : String)
    (provider : String → Bool × Json × String) : Except String (List Json) :=
  if jsTruthyStr apiKey = false then
    Except.error "HUGGINGFACE_API_KEY not configured in Convex environment"
  else
    match provider (String.mk (jsSlice text.data 0 2000)) with
    | (ok, body, errText) =>
      if ok = false then Except.error ("Hugging Face API error: " ++ errText)
      else
        match body with
        | Json.arr l =>
          if l.isEmpty then
            Except.error "Invalid embedding response from Hugging Face API"
          else Except.ok l
        | _ => Except.error "Invalid embedding response from Hugging Face API"

def isNumericVector (l : List Json) : Bool :=
  l.all fun j => match j with | Json.num _ => true | _ => false

/-! ### Embedding backfill (convex/embeddings.ts `generatePostEmbeddings`
with convex/embeddingsQueries.ts `getPostsWithoutEmbeddings`)

The store is the list `db`; `fetchO` is the IPFS fetch oracle (`none` = the
fetch threw, caught by the inner try) and `embedO` the provider oracle for
`generateEmbedding` (an error models a thrown provider call, caught by the
per-post try). -/

structure DbPost where
  id : String
  title : String
  contentCid : String
  published : Bool
  unlisted : Bool
  embedding : Option (List Int)
deriving DecidableEq

/-- `getPostsWithoutEmbeddings`: all published posts (by index), keep those
with no embedding and not unlisted, first `limit`.  (The handler also
projects to `{_id, title, contentCid}`; the loop uses only those fields.) -/
def getPostsWithoutEmbeddings (db : List DbPost) (limit : Nat) : List DbPost :=
  ((db.filter (fun p => p.published)).filter
    (fun p => p.embedding.isNone && !p.unlisted)).take limit

/-- The `\n{3,}` global replace of `prepareTextForEmbedding`: a run of three
or more newlines collapses to a blank line. -/
def nl3Step (l : List Char) : Option (List Char × Nat) :=
  match l with
  | '\n' :: '\n' :: '\n' :: t => some (['\n', '\n'], countLeading (· = '\n') t + 2)
  | _ => none

/-- `prepareTextForEmbedding(title, content)`: strip fenced code blocks,
then images, collapse 3+ newline runs, trim, and prepend the title with a
blank line. -/
def prepareTextForEmbedding (title : String) (content : String) : String :=
  title ++ "\n\n" ++
    String.mk (jsTrimList (runScan nl3Step
      (runScan imageStep (runScan codeBlockStep content.data))))

/-- The embedding input text for one post: a fetch failure — or an empty
fetched body — falls back to the title alone. -/
def textForPost (fetchO : DbPost → Option String) (p : DbPost) : String :=
  match fetchO p with
  | some content =>
    if content = "" then p.title else prepareTextForEmbedding p.title content
  | none => p.title

/-- `savePostEmbedding`: patch the embedding field of the post with this id. -/
def savePostEmbedding (db : List DbPost) (id : String) (v : List Int) :
    List DbPost :=
  db.map (fun q => if q.id = id then { q with embedding := some v } else q)

/-- One iteration of the backfill loop: embed and persist on success
(incrementing `processed`); a thrown provider call is caught, logged and
skipped, leaving the state untouched. -/
def backfillStep (fetchO : DbPost → Option String)
    (embedO : String → Except String (List Int)) :
    List DbPost × Nat → DbPost → List DbPost × Nat :=
  fun acc p =>
    match embedO (textForPost fetchO p) with
    | Except.ok v => (savePostEmbedding acc.1 p.id v, acc.2 + 1)
    | Except.error _ => acc

/-- `generatePostEmbeddings` (convex/embeddings.ts lines 375-417): query the
batch once (limit 10), then run the per-post loop over it. -/
def generatePostEmbeddings (db : List DbPost) (fetchO : DbPost → Option String)
    (embedO : String → Except String (List Int)) : List DbPost × Nat :=
  (getPostsWithoutEmbeddings db 10).foldl (backfillStep fetchO embedO) (db, 0)

/-- The batch-selection predicate of `getPostsWithoutEmbeddings` as a single
condition. -/
def condB (q : DbPost) : Bool := q.published && (q.embedding.isNone && !q.unlisted)

def successB (fetchO : DbPost → Option String)
    (embedO : String → Except String (List Int)) (p : DbPost) : Bool :=
  match embedO (textForPost fetchO p) with
  | Except.ok _ => true
  | Except.error _ => false

/-- `q`'s embedding was not written by any successful member of `ps`. -/
def notSaved (fetchO : DbPost → Option String)
    (embedO : String → Except String (List Int)) (ps : List DbPost)
    (q : DbPost) : Bool :=
  !(ps.any (fun p => successB fetchO embedO p && (q.id == p.id)))

def c8P1 : DbPost :=
  { id := "a", title := "T1", contentCid := "c1", published := true,
    unlisted := false, embedding := none }

def c8P2 : DbPost :=
  { id := "b", title := "T2", contentCid := "c2", published := true,
    unlisted := false, embedding := none }

def c8P3 : DbPost :=
  { id := "c", title := "T3", contentCid := "c3", published := true,
    unlisted := false, embedding := none }

def c8Fetch : DbPost → Option String := fun p =>
  if p.id = "a" then some "body one" else none

def c8Embed : String → Except String (List Int) := fun t =>
  if t = "T1\n\nbody one" then Except.error "rate limited" else Except.ok [1, 2]

theorem replaceScanF_fuel (step : List Char → Option (List Char × Nat)) :
    ∀ (f₁ f₂ : Nat) (l : List Char), l.length ≤ f₁ → l.length ≤ f₂ →
      replaceScanF step f₁ l = replaceScanF step f₂ l := by
  intro f₁
  induction f₁ with
  | zero =>
    intro f₂ l h₁ _
    have : l = [] := List.length_eq_zero.mp (Nat.le_zero.mp h₁)
    subst this
    cases f₂ <;> rfl
  | succ f ih =>
    intro f₂ l h₁ h₂
    cases l with
    | nil => cases f₂ <;> rfl
    | cons c cs =>
      cases f₂ with
      | zero => exact absurd h₂ (by simp)
      | succ f' =>
        show (match step (c :: cs) with
              | some (emit, k) => emit ++ replaceScanF step f (cs.drop k)
              | none => c :: replaceScanF step f cs) =
             (match step (c :: cs) with
              | some (emit, k) => emit ++ replaceScanF step f' (cs.drop k)
              | none => c :: replaceScanF step f' cs)
        cases hs : step (c :: cs) with
        | none =>
          simp only []
          have := ih f' cs (Nat.le_of_succ_le_succ h₁) (Nat.le_of_succ_le_succ h₂)
          rw [this]
        | some ek =>
          simp only []
          have hdk : (cs.drop ek.2).length ≤ cs.length := by
            simp [Nat.sub_le]
          have := ih f' (cs.drop ek.2)
            (Nat.le_trans hdk (Nat.le_of_succ_le_succ h₁))
            (Nat.le_trans hdk (Nat.le_of_succ_le_succ h₂))
          rw [this]

theorem runScan_nil (step : List Char → Option (List Char × Nat)) :
    runScan step [] = [] := rfl

theorem runScan_cons (step : List Char → Option (List Char × Nat))
    (c : Char) (cs : List Char) :
    runScan step (c :: cs) =
      match step (c :: cs) with
      | some (emit, k) => emit ++ runScan step (cs.drop k)
      | none => c :: runScan step cs := by
  show (match step (c :: cs) with
        | some (emit, k) => emit ++ replaceScanF step cs.length (cs.drop k)
        | none => c :: replaceScanF step cs.length cs) = _
  cases hs : step (c :: cs) with
  | none => rfl
  | some ek =>
    simp only []
    rw [replaceScanF_fuel step cs.length (cs.drop ek.2).length (cs.drop ek.2)
      (by simp [Nat.sub_le]) (Nat.le_refl _)]
    rfl

/-- C1 (counterexample): with no custom gateway configured the primary
endpoint *is* the canonical public fallback endpoint, yet a primary 429
response triggers a second fetch of the very same URL, which is then allowed
to succeed — contradicting "when primary and fallback endpoints are
identical, no retry is made and the single failure is surfaced". -/
theorem c1_identical_endpoints_retry :
    (fetchContentFromIPFS none "QmTest"
        [FetchOutcome.httpError 429 "Too Many Requests",
         FetchOutcome.success "body"]).2 =
      ["https://gateway.pinata.cloud/ipfs/QmTest",
       "https://gateway.pinata.cloud/ipfs/QmTest"] ∧
    (fetchContentFromIPFS none "QmTest"
        [FetchOutcome.httpError 429 "Too Many Requests",
         FetchOutcome.success "body"]).1 = Except.ok "body" := by
  constructor <;> rfl

/-- C1 (amended): for every non-empty content address, at most two fallback
fetches follow the primary one (three fetches in all); a successful primary
response is returned without any fallback fetch; when the configured gateway
is the public endpoint itself, a single retry of that same endpoint happens
exactly when the primary returned HTTP 403, 401 or 429; when the configured
gateway differs from the public endpoint, the call stops after the primary
fetch exactly when that fetch succeeded. -/
theorem fetchBody_fallback_policy (env : Option String) (cid : String)
    (net : List FetchOutcome) (h : cid ≠ "") :
    (fetchContentFromIPFS env cid net).2.length ≤ 3 ∧
    (∀ b, nthOutcome net 0 = FetchOutcome.success b →
      fetchContentFromIPFS env cid net = (Except.ok b, [gatewayUrlOf env cid])) ∧
    (getIPFSGatewayUrl env = publicGatewayBase →
      (fetchContentFromIPFS env cid net).2.length ≤ 2 ∧
      ((fetchContentFromIPFS env cid net).2.length = 2 ↔
        ∃ s st, nthOutcome net 0 = FetchOutcome.httpError s st ∧
          (s = 403 ∨ s = 401 ∨ s = 429))) ∧
    (getIPFSGatewayUrl env ≠ publicGatewayBase →
      ((fetchContentFromIPFS env cid net).2.length = 1 ↔
        ∃ b, nthOutcome net 0 = FetchOutcome.success b)) := by
  by_cases hb : getIPFSGatewayUrl env = publicGatewayBase
  · cases h0 : nthOutcome net 0 with
    | success b =>
      simp [fetchContentFromIPFS, h, h0, hb]
    | httpError s st =>
      by_cases hs : s = 403 ∨ s = 401 ∨ s = 429
      · cases h1 : nthOutcome net 1 with
        | success b => simp [fetchContentFromIPFS, h, h0, h1, hb, hs, fetchCatch]
        | httpError s2 st2 =>
          simp [fetchContentFromIPFS, h, h0, h1, hb, hs, fetchCatch]
        | throws m2 => simp [fetchContentFromIPFS, h, h0, h1, hb, hs, fetchCatch]
      · simp [fetchContentFromIPFS, h, h0, hb, hs, fetchCatch]
    | throws m =>
      simp [fetchContentFromIPFS, h, h0, hb, fetchCatch]
  · cases h0 : nthOutcome net 0 with
    | success b =>
      simp [fetchContentFromIPFS, h, h0, hb]
    | httpError s st =>
      by_cases hs : s = 403 ∨ s = 401 ∨ s = 429
      · cases h1 : nthOutcome net 1 with
        | success b => simp [fetchContentFromIPFS, h, h0, h1, hb, hs, fetchCatch]
        | httpError s2 st2 =>
          cases h2 : nthOutcome net 2 with
          | success b => simp [fetchContentFromIPFS, h, h0, h1, h2, hb, hs, fetchCatch]
          | httpError s3 st3 =>
            simp [fetchContentFromIPFS, h, h0, h1, h2, hb, hs, fetchCatch]
          | throws m3 => simp [fetchContentFromIPFS, h, h0, h1, h2, hb, hs, fetchCatch]
        | throws m2 =>
          cases h2 : nthOutcome net 2 with
          | success b => simp [fetchContentFromIPFS, h, h0, h1, h2, hb, hs, fetchCatch]
          | httpError s3 st3 =>
            simp [fetchContentFromIPFS, h, h0, h1, h2, hb, hs, fetchCatch]
          | throws m3 => simp [fetchContentFromIPFS, h, h0, h1, h2, hb, hs, fetchCatch]
      · cases h1 : nthOutcome net 1 with
        | success b => simp [fetchContentFromIPFS, h, h0, h1, hb, hs, fetchCatch]
        | httpError s2 st2 =>
          simp [fetchContentFromIPFS, h, h0, h1, hb, hs, fetchCatch]
        | throws m2 => simp [fetchContentFromIPFS, h, h0, h1, hb, hs, fetchCatch]
    | throws m =>
      cases h1 : nthOutcome net 1 with
      | success b => simp [fetchContentFromIPFS, h, h0, h1, hb, fetchCatch]
      | httpError s2 st2 => simp [fetchContentFromIPFS, h, h0, h1, hb, fetchCatch]
      | throws m2 => simp [fetchContentFromIPFS, h, h0, h1, hb, fetchCatch]

/-- C1 (witness): instantiation of the fallback policy at a custom gateway
whose primary fetch throws. -/
theorem fetchBody_fallback_policy_witness :
    ((fetchContentFromIPFS (some "gw.example") "Qm"
        [FetchOutcome.throws "boom", FetchOutcome.throws "boom2"]).2.length = 1 ↔
      ∃ b, nthOutcome [FetchOutcome.throws "boom", FetchOutcome.throws "boom2"] 0 =
        FetchOutcome.success b) :=
  (fetchBody_fallback_policy (some "gw.example") "Qm"
    [FetchOutcome.throws "boom", FetchOutcome.throws "boom2"]
    (by decide)).2.2.2 (by decide)

/-- C2 (counterexample): custom gateway, primary returns 403 (a "retriable"
status), the in-try fallback fetch returns 500, the catch-block fallback
fetch also fails: the surfaced error carries the *fallback's* 500 details
and has lost the primary's 403 entirely — contradicting "fails with the
primary attempt's error details preserved". -/
theorem c2_fallback_error_surfaced :
    (fetchContentFromIPFS (some "my-gateway.example.com") "QmX"
        [FetchOutcome.httpError 403 "Forbidden",
         FetchOutcome.httpError 500 "Internal Server Error",
         FetchOutcome.httpError 502 "Bad Gateway"]).1 =
      Except.error
        "Failed to fetch content from IPFS: Failed to fetch content from IPFS: 500 Internal Server Error" ∧
    jsIncludes
      "Failed to fetch content from IPFS: Failed to fetch content from IPFS: 500 Internal Server Error"
      "403" = false := by
  constructor <;> rfl

/-- C2 (amended): with a custom gateway distinct from the public endpoint,
when the primary fetch threw, or returned a non-ok status outside
{401, 403, 429}, and the fallback fetch also fails, the surfaced error wraps
the primary's own error details; but when the primary returned 401/403/429
and the in-try fallback fetch failed, the surfaced error wraps that first
fallback attempt's details instead of the primary's. -/
theorem fetchBody_error_preservation (env : Option String) (cid : String)
    (net : List FetchOutcome) (h : cid ≠ "")
    (hb : getIPFSGatewayUrl env ≠ publicGatewayBase) :
    (∀ m, nthOutcome net 0 = FetchOutcome.throws m →
      isSuccess (nthOutcome net 1) = false →
      (fetchContentFromIPFS env cid net).1 = Except.error (wrapFetchErr m)) ∧
    (∀ s st, nthOutcome net 0 = FetchOutcome.httpError s st →
      ¬(s = 403 ∨ s = 401 ∨ s = 429) →
      isSuccess (nthOutcome net 1) = false →
      (fetchContentFromIPFS env cid net).1 =
        Except.error (wrapFetchErr (fetchFailMsg s st))) ∧
    (∀ s st s2 st2, nthOutcome net 0 = FetchOutcome.httpError s st →
      (s = 403 ∨ s = 401 ∨ s = 429) →
      nthOutcome net 1 = FetchOutcome.httpError s2 st2 →
      isSuccess (nthOutcome net 2) = false →
      (fetchContentFromIPFS env cid net).1 =
        Except.error (wrapFetchErr (fetchFailMsg s2 st2))) := by
  refine ⟨?_, ?_, ?_⟩
  · intro m h0 h1
    cases hn1 : nthOutcome net 1 with
    | success b => rw [hn1] at h1; simp [isSuccess] at h1
    | httpError s2 st2 => simp [fetchContentFromIPFS, h, h0, hn1, hb, fetchCatch]
    | throws m2 => simp [fetchContentFromIPFS, h, h0, hn1, hb, fetchCatch]
  · intro s st h0 hs h1
    cases hn1 : nthOutcome net 1 with
    | success b => rw [hn1] at h1; simp [isSuccess] at h1
    | httpError s2 st2 => simp [fetchContentFromIPFS, h, h0, hn1, hb, hs, fetchCatch]
    | throws m2 => simp [fetchContentFromIPFS, h, h0, hn1, hb, hs, fetchCatch]
  · intro s st s2 st2 h0 hs h1 h2
    cases hn2 : nthOutcome net 2 with
    | success b => rw [hn2] at h2; simp [isSuccess] at h2
    | httpError s3 st3 => simp [fetchContentFromIPFS, h, h0, h1, hn2, hb, hs, fetchCatch]
    | throws m3 => simp [fetchContentFromIPFS, h, h0, h1, hn2, hb, hs, fetchCatch]

/-- C2 (witness): primary transport failure with a failing fallback
preserves the primary's message. -/
theorem fetchBody_error_preservation_witness :
    (fetchContentFromIPFS (some "gw.example") "Qm"
        [FetchOutcome.throws "boom", FetchOutcome.httpError 500 "ISE"]).1 =
      Except.error (wrapFetchErr "boom") :=
  (fetchBody_error_preservation (some "gw.example") "Qm"
    [FetchOutcome.throws "boom", FetchOutcome.httpError 500 "ISE"]
    (by decide) (by decide)).1 "boom" (by decide) (by decide)

/-! ### Generic lemmas about the replace scanner -/

theorem strLength_mk (l : List Char) : (String.mk l).length = l.length := rfl

theorem replaceScanF_eq_self (step : List Char → Option (List Char × Nat))
    (trigP : Char → Prop)
    (hstep : ∀ c cs, ¬ trigP c → step (c :: cs) = none) :
    ∀ (fuel : Nat) (l : List Char), (∀ c ∈ l, ¬ trigP c) →
      replaceScanF step fuel l = l := by
  intro fuel
  induction fuel with
  | zero => intro l _; cases l <;> rfl
  | succ f ih =>
    intro l hl
    cases l with
    | nil => rfl
    | cons c cs =>
      show (match step (c :: cs) with
            | some (emit, k) => emit ++ replaceScanF step f (cs.drop k)
            | none => c :: replaceScanF step f cs) = c :: cs
      rw [hstep c cs (hl c (List.mem_cons_self c cs))]
      exact congrArg (c :: ·) (ih cs fun d hd => hl d (List.mem_cons_of_mem c hd))

theorem runScan_eq_self (step : List Char → Option (List Char × Nat))
    (trigP : Char → Prop)
    (hstep : ∀ c cs, ¬ trigP c → step (c :: cs) = none)
    (l : List Char) (h : ∀ c ∈ l, ¬ trigP c) : runScan step l = l :=
  replaceScanF_eq_self step trigP hstep l.length l h

theorem mem_replaceScanF (step : List Char → Option (List Char × Nat))
    (hstep : ∀ l e k, step l = some (e, k) → ∀ c ∈ e, c ∈ l ∨ c = ' ') :
    ∀ (fuel : Nat) (l : List Char), ∀ c ∈ replaceScanF step fuel l, c ∈ l ∨ c = ' ' := by
  intro fuel
  induction fuel with
  | zero => intro l c hc; cases l with
    | nil => cases hc
    | cons d ds => exact Or.inl hc
  | succ f ih =>
    intro l c hc
    cases l with
    | nil => cases hc
    | cons d ds =>
      revert hc
      show c ∈ (match step (d :: ds) with
            | some (emit, k) => emit ++ replaceScanF step f (ds.drop k)
            | none => d :: replaceScanF step f ds) → _
      cases hs : step (d :: ds) with
      | some ek =>
        intro hc
        rcases List.mem_append.mp hc with hc | hc
        · exact hstep (d :: ds) ek.1 ek.2 (by rw [hs]) c hc
        · rcases ih (ds.drop ek.2) c hc with hm | hm
          · exact Or.inl (List.mem_cons_of_mem d ((List.drop_sublist _ _).mem hm))
          · exact Or.inr hm
      | none =>
        intro hc
        rcases List.mem_cons.mp hc with hc | hc
        · exact Or.inl (hc ▸ List.mem_cons_self d ds)
        · rcases ih ds c hc with hm | hm
          · exact Or.inl (List.mem_cons_of_mem d hm)
          · exact Or.inr hm

theorem mem_runScan (step : List Char → Option (List Char × Nat))
    (hstep : ∀ l e k, step l = some (e, k) → ∀ c ∈ e, c ∈ l ∨ c = ' ')
    (l : List Char) (c : Char) (hc : c ∈ runScan step l) : c ∈ l ∨ c = ' ' :=
  mem_replaceScanF step hstep l.length l c hc

/-! ### Per-step facts -/

theorem headerStep_none (c : Char) (cs : List Char) (h : ¬ c = '#') :
    headerStep (c :: cs) = none := by
  simp [headerStep, countLeading, h]

theorem boldStep_none (c : Char) (cs : List Char) (h : ¬ c = '*') :
    boldStep (c :: cs) = none := by
  unfold boldStep
  split <;> simp_all

theorem italicStep_none (c : Char) (cs : List Char) (h : ¬ c = '*') :
    italicStep (c :: cs) = none := by
  unfold italicStep
  split <;> simp_all

theorem inlineCodeStep_none (c : Char) (cs : List Char) (h : ¬ c = '`') :
    inlineCodeStep (c :: cs) = none := by
  unfold inlineCodeStep
  split <;> simp_all

theorem codeBlockStep_none (c : Char) (cs : List Char) (h : ¬ c = '`') :
    codeBlockStep (c :: cs) = none := by
  unfold codeBlockStep
  split <;> simp_all

theorem linkStep_none (c : Char) (cs : List Char) (h : ¬ c = '[') :
    linkStep (c :: cs) = none := by
  unfold linkStep
  split <;> simp_all

theorem imageStep_none (c : Char) (cs : List Char) (h : ¬ c = '!') :
    imageStep (c :: cs) = none := by
  unfold imageStep
  split <;> simp_all

theorem nlStep_none (c : Char) (cs : List Char) (h : ¬ c = '\n') :
    nlStep (c :: cs) = none := by
  unfold nlStep
  split <;> simp_all

theorem wsStep_none (c : Char) (cs : List Char) (h : jsIsWs c = false) :
    wsStep (c :: cs) = none := by
  simp [wsStep, h]

theorem takeWhile_portion_mem (p : Char → Bool) (t : List Char) :
    ∀ c ∈ t.takeWhile p, c ∈ t := fun _ hc => (List.takeWhile_sublist p).mem hc

theorem headerStep_emit (l e : List Char) (k : Nat) (h : headerStep l = some (e, k)) :
    ∀ c ∈ e, c ∈ l ∨ c = ' ' := by
  simp only [headerStep] at h
  split at h <;> try cases h
  split at h <;> try cases h
  split at h <;> try cases h
  simp

theorem boldStep_emit (l e : List Char) (k : Nat) (h : boldStep l = some (e, k)) :
    ∀ c ∈ e, c ∈ l ∨ c = ' ' := by
  simp only [boldStep] at h
  split at h <;> try cases h
  split at h <;> try cases h
  split at h <;> try cases h
  intro c hc
  refine Or.inl (List.mem_cons_of_mem _ (List.mem_cons_of_mem _ ?_))
  exact takeWhile_portion_mem _ _ c hc

theorem italicStep_emit (l e : List Char) (k : Nat) (h : italicStep l = some (e, k)) :
    ∀ c ∈ e, c ∈ l ∨ c = ' ' := by
  simp only [italicStep] at h
  split at h <;> try cases h
  split at h <;> try cases h
  split at h <;> try cases h
  intro c hc
  exact Or.inl (List.mem_cons_of_mem _ (takeWhile_portion_mem _ _ c hc))

theorem inlineCodeStep_emit (l e : List Char) (k : Nat)
    (h : inlineCodeStep l = some (e, k)) : ∀ c ∈ e, c ∈ l ∨ c = ' ' := by
  simp only [inlineCodeStep] at h
  split at h <;> try cases h
  split at h <;> try cases h
  split at h <;> try cases h
  intro c hc
  exact Or.inl (List.mem_cons_of_mem _ (takeWhile_portion_mem _ _ c hc))

theorem codeBlockStep_emit (l e : List Char) (k : Nat)
    (h : codeBlockStep l = some (e, k)) : ∀ c ∈ e, c ∈ l ∨ c = ' ' := by
  simp only [codeBlockStep] at h
  split at h <;> try cases h
  split at h <;> try cases h
  simp

theorem linkStep_emit (l e : List Char) (k : Nat) (h : linkStep l = some (e, k)) :
    ∀ c ∈ e, c ∈ l ∨ c = ' ' := by
  simp only [linkStep] at h
  split at h <;> try cases h
  split at h <;> try cases h
  split at h <;> try cases h
  split at h <;> try cases h
  split at h <;> try cases h
  intro c hc
  exact Or.inl (List.mem_cons_of_mem _ (takeWhile_portion_mem _ _ c hc))

theorem imageStep_emit (l e : List Char) (k : Nat) (h : imageStep l = some (e, k)) :
    ∀ c ∈ e, c ∈ l ∨ c = ' ' := by
  simp only [imageStep] at h
  split at h <;> try cases h
  split at h <;> try cases h
  split at h <;> try cases h
  split at h <;> try cases h
  simp

theorem nlStep_emit (l e : List Char) (k : Nat) (h : nlStep l = some (e, k)) :
    ∀ c ∈ e, c ∈ l ∨ c = ' ' := by
  simp only [nlStep] at h
  split at h <;> try cases h
  simp

theorem wsStep_emit (l e : List Char) (k : Nat) (h : wsStep l = some (e, k)) :
    ∀ c ∈ e, c ∈ l ∨ c = ' ' := by
  simp only [wsStep] at h
  split at h <;> try cases h
  split at h <;> try cases h
  simp

/-! ### Trim lemmas -/

theorem dropWhile_head_false (p : Char → Bool) (l : List Char) (c : Char)
    (h : (l.dropWhile p).head? = some c) : p c = false := by
  induction l with
  | nil => cases h
  | cons d ds ih =>
    by_cases hd : p d
    · rw [List.dropWhile_cons_of_pos hd] at h
      exact ih h
    · rw [List.dropWhile_cons_of_neg hd] at h
      cases h
      exact Bool.eq_false_iff.mpr hd

theorem dropWhile_self (p : Char → Bool) (l : List Char)
    (h : ∀ c, l.head? = some c → p c = false) : l.dropWhile p = l := by
  cases l with
  | nil => rfl
  | cons d ds =>
    exact List.dropWhile_cons_of_neg (by simp [h d rfl])

theorem dropWhile_dropWhile_self (p : Char → Bool) (l : List Char) :
    (l.dropWhile p).dropWhile p = l.dropWhile p :=
  dropWhile_self p _ (fun c hc => dropWhile_head_false p l c hc)

theorem trimEnd_front (A : List Char) :
    (A.reverse.dropWhile jsIsWs).reverse <+: A := by
  have h := List.reverse_prefix.mpr (List.dropWhile_suffix (l := A.reverse) jsIsWs)
  rwa [List.reverse_reverse] at h

theorem jsTrimList_within (l : List Char) : jsTrimList l <:+: l := by
  have h1 := trimEnd_front (l.dropWhile jsIsWs)
  have h2 : l.dropWhile jsIsWs <:+ l := List.dropWhile_suffix jsIsWs
  exact h1.isInfix.trans h2.isInfix

theorem prefix_head_eq {l₁ l₂ : List Char} (h : l₁ <+: l₂) (hne : l₁ ≠ []) :
    l₂.head? = l₁.head? := by
  obtain ⟨t, rfl⟩ := h
  cases l₁ with
  | nil => exact absurd rfl hne
  | cons c cs => rfl

theorem jsTrimList_idem (l : List Char) : jsTrimList (jsTrimList l) = jsTrimList l := by
  have hpre : jsTrimList l <+: l.dropWhile jsIsWs := trimEnd_front _
  have hhead : ∀ c, (jsTrimList l).head? = some c → jsIsWs c = false := by
    intro c hc
    by_cases hne : jsTrimList l = []
    · rw [hne] at hc; cases hc
    · have := prefix_head_eq hpre hne
      exact dropWhile_head_false jsIsWs l c (this ▸ hc)
  show ((((jsTrimList l).dropWhile jsIsWs).reverse.dropWhile jsIsWs)).reverse = jsTrimList l
  rw [dropWhile_self jsIsWs (jsTrimList l) hhead]
  show (((((l.dropWhile jsIsWs).reverse.dropWhile jsIsWs).reverse).reverse).dropWhile jsIsWs).reverse = _
  rw [List.reverse_reverse, dropWhile_dropWhile_self]
  rfl

/-- C10 (confirmed): the snippet returned by `createSnippet` never exceeds
`maxLength` characters of stripped text plus one leading and one trailing
three-character ellipsis. -/
theorem createSnippet_snippet_length (content searchTerm : String) (maxLength : Nat) :
    (createSnippet content searchTerm maxLength).snippet.length ≤ maxLength + 6 := by
  have h3 : ("..." : String).length = 3 := rfl
  have h0 : ("" : String).length = 0 := rfl
  simp only [createSnippet]
  cases hidx : jsIndexOf (toLowerStr (cleanContent content)) (toLowerStr searchTerm) with
  | none =>
    simp only [hidx]
    rw [String.length_append, strLength_mk]
    simp only [jsSlice, List.drop_zero, Nat.sub_zero, List.length_take]
    split_ifs <;> simp only [h3, h0] <;> omega
  | some index =>
    simp only [hidx]
    split_ifs <;>
      simp only [String.length_append, strLength_mk, jsSlice, List.length_take,
        List.length_drop, h3] <;>
      omega

/-- C4 (code-bug evaluation): the stripping chain applies the inline-code
unwrap *before* code-block removal, so a standard fenced block whose body
has no backtick loses its fences and its content survives into the snippet:
stripping ```"```\nsecret\n```"``` yields `"`` secret ``"`, and the snippet
returned for the search term "secret" contains the block's content. -/
theorem c4_code_block_content_leaks :
    cleanContent "```\nsecret\n```" = "`` secret ``" ∧
    (createSnippet "```\nsecret\n```" "secret" 150).snippet = "`` secret ``" ∧
    jsIncludes (createSnippet "```\nsecret\n```" "secret" 150).snippet "secret" = true := by
  refine ⟨rfl, rfl, rfl⟩

theorem wsFlat_nil : WsFlat [] :=
  ⟨fun c hc => absurd hc (List.not_mem_nil c), List.chain'_nil⟩

theorem wsFlat_tail {c : Char} {cs : List Char} (h : WsFlat (c :: cs)) : WsFlat cs :=
  ⟨fun d hd => h.1 d (List.mem_cons_of_mem c hd), (List.chain'_cons'.mp h.2).2⟩

theorem wsFlat_within {l₁ l₂ : List Char} (h : l₁ <:+: l₂) (hf : WsFlat l₂) :
    WsFlat l₁ :=
  ⟨fun c hc hw => hf.1 c (h.sublist.mem hc) hw, List.Chain'.infix hf.2 h⟩

theorem drop_countLeading (p : Char → Bool) (l : List Char) :
    l.drop (countLeading p l) = l.dropWhile p := by
  induction l with
  | nil => rfl
  | cons c cs ih =>
    by_cases hc : p c <;>
      simp [countLeading, List.dropWhile_cons, hc, List.drop_succ_cons, ih]

theorem dropWhile_cons_head_false (p : Char → Bool) (l : List Char) (d : Char)
    (ds : List Char) (h : l.dropWhile p = d :: ds) : p d = false :=
  dropWhile_head_false p l d (by rw [h]; rfl)

theorem replaceScanF_nil_any (step : List Char → Option (List Char × Nat))
    (fuel : Nat) : replaceScanF step fuel [] = [] := by
  cases fuel <;> rfl

theorem wsFlat_replaceScanF (fuel : Nat) :
    ∀ l : List Char, l.length ≤ fuel → WsFlat (replaceScanF wsStep fuel l) := by
  induction fuel with
  | zero =>
    intro l hl
    have : l = [] := List.length_eq_zero.mp (Nat.le_zero.mp hl)
    subst this
    exact wsFlat_nil
  | succ f ih =>
    intro l hl
    cases l with
    | nil => exact wsFlat_nil
    | cons c cs =>
      by_cases hw : jsIsWs c
      · have hstep : wsStep (c :: cs) = some ([' '], countLeading jsIsWs cs) := by
          simp [wsStep, hw]
        have hred : replaceScanF wsStep (f + 1) (c :: cs) =
            ' ' :: replaceScanF wsStep f (cs.drop (countLeading jsIsWs cs)) := by
          show (match wsStep (c :: cs) with
                | some (emit, k) => emit ++ replaceScanF wsStep f (cs.drop k)
                | none => c :: replaceScanF wsStep f cs) = _
          rw [hstep]
          rfl
        rw [hred, drop_countLeading]
        have hlen : (cs.dropWhile jsIsWs).length ≤ f :=
          Nat.le_trans ((List.dropWhile_sublist jsIsWs).length_le)
            (Nat.le_of_succ_le_succ hl)
        have hR := ih (cs.dropWhile jsIsWs) hlen
        refine ⟨?_, ?_⟩
        · intro d hd hwd
          rcases List.mem_cons.mp hd with rfl | hd
          · rfl
          · exact hR.1 d hd hwd
        · rw [List.chain'_cons']
          refine ⟨?_, hR.2⟩
          intro y hy
          right
          cases hdrop : cs.dropWhile jsIsWs with
          | nil =>
            rw [hdrop, replaceScanF_nil_any] at hy
            cases hy
          | cons d ds =>
            have hdw : jsIsWs d = false := dropWhile_cons_head_false jsIsWs cs d ds hdrop
            rw [hdrop] at hy
            cases f with
            | zero =>
              rw [hdrop] at hlen
              exact absurd hlen (by simp)
            | succ f' =>
              have : replaceScanF wsStep (f' + 1) (d :: ds) =
                  d :: replaceScanF wsStep f' ds := by
                show (match wsStep (d :: ds) with
                      | some (emit, k) => emit ++ replaceScanF wsStep f' (ds.drop k)
                      | none => d :: replaceScanF wsStep f' ds) = _
                rw [wsStep_none d ds hdw]
              rw [this] at hy
              cases hy
              exact hdw
      · have hwf : jsIsWs c = false := Bool.eq_false_iff.mpr hw
        have hred : replaceScanF wsStep (f + 1) (c :: cs) =
            c :: replaceScanF wsStep f cs := by
          show (match wsStep (c :: cs) with
                | some (emit, k) => emit ++ replaceScanF wsStep f (cs.drop k)
                | none => c :: replaceScanF wsStep f cs) = _
          rw [wsStep_none c cs hwf]
        rw [hred]
        have hR := ih cs (Nat.le_of_succ_le_succ hl)
        refine ⟨?_, ?_⟩
        · intro d hd hwd
          rcases List.mem_cons.mp hd with rfl | hd
          · exact absurd hwd (by simp [hwf])
          · exact hR.1 d hd hwd
        · rw [List.chain'_cons']
          exact ⟨fun y _ => Or.inl hwf, hR.2⟩

theorem replaceScanF_ws_flat (fuel : Nat) :
    ∀ l : List Char, WsFlat l → replaceScanF wsStep fuel l = l := by
  induction fuel with
  | zero => intro l _; cases l <;> rfl
  | succ f ih =>
    intro l hf
    cases l with
    | nil => rfl
    | cons c cs =>
      by_cases hw : jsIsWs c
      · have hc : c = ' ' := hf.1 c (List.mem_cons_self c cs) hw
        have hnext : countLeading jsIsWs cs = 0 := by
          cases cs with
          | nil => rfl
          | cons d ds =>
            rcases (List.chain'_cons'.mp hf.2).1 d rfl with h1 | h2
            · rw [hw] at h1; cases h1
            · simp [countLeading, h2]
        have hstep : wsStep (c :: cs) = some ([' '], 0) := by
          simp [wsStep, hw, hnext]
        show (match wsStep (c :: cs) with
              | some (emit, k) => emit ++ replaceScanF wsStep f (cs.drop k)
              | none => c :: replaceScanF wsStep f cs) = c :: cs
        rw [hstep]
        show ' ' :: replaceScanF wsStep f (cs.drop 0) = c :: cs
        rw [List.drop_zero, ih cs (wsFlat_tail hf), hc]
      · have hwf : jsIsWs c = false := Bool.eq_false_iff.mpr hw
        show (match wsStep (c :: cs) with
              | some (emit, k) => emit ++ replaceScanF wsStep f (cs.drop k)
              | none => c :: replaceScanF wsStep f cs) = c :: cs
        rw [wsStep_none c cs hwf]
        rw [ih cs (wsFlat_tail hf)]

/-- C9 (counterexample): stripping is not idempotent — in `"#` `y"` the
inline-code unwrap exposes a fresh `"# "` heading marker, which only the
second strip removes. -/
theorem c9_strip_not_idempotent :
    cleanContent (cleanContent "#` `y") ≠ cleanContent "#` `y" := by decide

/-- C9 (amended): the strip used for snippets is idempotent on inputs free
of the marker characters `#`, `*`, `` ` ``, `[`, `!` (whitespace arbitrary);
on general inputs idempotence fails because unwrapping can expose new
markers. -/
theorem cleanContent_idem_of_markerFree (x : String)
    (h : markerFree x.data = true) :
    cleanContent (cleanContent x) = cleanContent x := by
  have hall := List.all_eq_true.mp h
  have hm5 : ∀ c ∈ x.data, c ≠ '#' ∧ c ≠ '*' ∧ c ≠ '`' ∧ c ≠ '[' ∧ c ≠ '!' := by
    intro c hc
    have := hall c hc
    simp [and_assoc] at this
    exact this
  have seven : ∀ m : List Char,
      (∀ c ∈ m, c ≠ '#' ∧ c ≠ '*' ∧ c ≠ '`' ∧ c ≠ '[' ∧ c ≠ '!') →
      runScan imageStep (runScan linkStep (runScan codeBlockStep
        (runScan inlineCodeStep (runScan italicStep (runScan boldStep
          (runScan headerStep m)))))) = m := by
    intro m hm
    rw [runScan_eq_self headerStep (· = '#') headerStep_none m
      (fun c hc => (hm c hc).1)]
    rw [runScan_eq_self boldStep (· = '*') boldStep_none m
      (fun c hc => (hm c hc).2.1)]
    rw [runScan_eq_self italicStep (· = '*') italicStep_none m
      (fun c hc => (hm c hc).2.1)]
    rw [runScan_eq_self inlineCodeStep (· = '`') inlineCodeStep_none m
      (fun c hc => (hm c hc).2.2.1)]
    rw [runScan_eq_self codeBlockStep (· = '`') codeBlockStep_none m
      (fun c hc => (hm c hc).2.2.1)]
    rw [runScan_eq_self linkStep (· = '[') linkStep_none m
      (fun c hc => (hm c hc).2.2.2.1)]
    rw [runScan_eq_self imageStep (· = '!') imageStep_none m
      (fun c hc => (hm c hc).2.2.2.2)]
  have e1 : cleanContent x =
      String.mk (jsTrimList (runScan wsStep (runScan nlStep x.data))) := by
    unfold cleanContent
    rw [seven x.data hm5]
  have hy0flat : WsFlat (runScan wsStep (runScan nlStep x.data)) :=
    wsFlat_replaceScanF (runScan nlStep x.data).length (runScan nlStep x.data)
      (Nat.le_refl _)
  have hyflat : WsFlat (jsTrimList (runScan wsStep (runScan nlStep x.data))) :=
    wsFlat_within (jsTrimList_within _) hy0flat
  have hymem : ∀ c ∈ jsTrimList (runScan wsStep (runScan nlStep x.data)),
      c ∈ x.data ∨ c = ' ' := by
    intro c hc
    have hc0 := (jsTrimList_within _).sublist.mem hc
    rcases mem_runScan wsStep wsStep_emit _ c hc0 with h1 | h1
    · rcases mem_runScan nlStep nlStep_emit _ c h1 with h2 | h2
      · exact Or.inl h2
      · exact Or.inr h2
    · exact Or.inr h1
  have hymark : ∀ c ∈ jsTrimList (runScan wsStep (runScan nlStep x.data)),
      c ≠ '#' ∧ c ≠ '*' ∧ c ≠ '`' ∧ c ≠ '[' ∧ c ≠ '!' := by
    intro c hc
    rcases hymem c hc with h1 | rfl
    · exact hm5 c h1
    · exact ⟨by decide, by decide, by decide, by decide, by decide⟩
  have e2 : cleanContent (String.mk (jsTrimList (runScan wsStep
        (runScan nlStep x.data)))) =
      String.mk (jsTrimList (runScan wsStep (runScan nlStep
        (jsTrimList (runScan wsStep (runScan nlStep x.data)))))) := by
    unfold cleanContent
    rw [seven _ hymark]
  have hnl : runScan nlStep (jsTrimList (runScan wsStep (runScan nlStep x.data))) =
      jsTrimList (runScan wsStep (runScan nlStep x.data)) := by
    refine runScan_eq_self nlStep (· = '\n') nlStep_none _ ?_
    intro c hc hcn
    subst hcn
    have := hyflat.1 '\n' hc (by decide)
    cases this
  have hws : runScan wsStep (jsTrimList (runScan wsStep (runScan nlStep x.data))) =
      jsTrimList (runScan wsStep (runScan nlStep x.data)) :=
    replaceScanF_ws_flat _ _ hyflat
  have htr : jsTrimList (jsTrimList (runScan wsStep (runScan nlStep x.data))) =
      jsTrimList (runScan wsStep (runScan nlStep x.data)) := jsTrimList_idem _
  rw [e1, e2, hnl, hws, htr]

/-- C9 (witness): idempotence at a concrete marker-free input with
whitespace runs. -/
theorem cleanContent_idem_witness :
    cleanContent (cleanContent "hello   world\n\nand more  ") =
      cleanContent "hello   world\n\nand more  " :=
  cleanContent_idem_of_markerFree "hello   world\n\nand more  " (by decide)

/-! ### Anchor characterization (C3) -/

theorem headingsOfAux_pos_le (lines : List String) :
    ∀ (pos : Nat), ∀ hd ∈ headingsOfAux lines pos, pos ≤ hd.position := by
  induction lines with
  | nil => intro pos hd h; cases h
  | cons line rest ih =>
    intro pos hd h
    revert h
    show hd ∈ (match headingTextOfLine line with
      | some t => ({ text := t, position := pos, id := generateSlug t } : Heading) ::
          headingsOfAux rest (pos + line.length + 1)
      | none => headingsOfAux rest (pos + line.length + 1)) → pos ≤ hd.position
    cases hm : headingTextOfLine line with
    | some t =>
      intro h
      rcases List.mem_cons.mp h with rfl | h
      · exact Nat.le_refl _
      · exact Nat.le_trans (by omega) (ih _ hd h)
    | none =>
      intro h
      exact Nat.le_trans (by omega) (ih _ hd h)

theorem headingsOfAux_sorted (lines : List String) :
    ∀ (pos : Nat),
      (headingsOfAux lines pos).Pairwise (fun a b => a.position ≤ b.position) := by
  induction lines with
  | nil => intro pos; exact List.Pairwise.nil
  | cons line rest ih =>
    intro pos
    show (match headingTextOfLine line with
      | some t => ({ text := t, position := pos, id := generateSlug t } : Heading) ::
          headingsOfAux rest (pos + line.length + 1)
      | none => headingsOfAux rest (pos + line.length + 1)).Pairwise
        (fun a b : Heading => a.position ≤ b.position)
    cases hm : headingTextOfLine line with
    | some t =>
      refine List.Pairwise.cons ?_ (ih _)
      intro b hb
      have := headingsOfAux_pos_le rest _ b hb
      show pos ≤ b.position
      omega
    | none => exact ih _

theorem nearestLoop_eq (mp : Nat) :
    ∀ (hs : List Heading) (acc : Option Heading),
      hs.Pairwise (fun a b => a.position ≤ b.position) →
      nearestLoop mp hs acc =
        if hs.filter (fun hd => hd.position ≤ mp) = [] then acc
        else (hs.filter (fun hd => hd.position ≤ mp)).getLast? := by
  intro hs
  induction hs with
  | nil => intro acc _; simp [nearestLoop]
  | cons hd rest ih =>
    intro acc hsort
    by_cases hp : hd.position ≤ mp
    · have hpd : decide (hd.position ≤ mp) = true := by simpa using hp
      rw [show nearestLoop mp (hd :: rest) acc = nearestLoop mp rest (some hd) from by
        simp [nearestLoop, hp]]
      rw [ih (some hd) (List.pairwise_cons.mp hsort).2]
      rw [List.filter_cons, if_pos hpd, if_neg (List.cons_ne_nil _ _)]
      cases hfr : rest.filter (fun x => decide (x.position ≤ mp)) with
      | nil => simp [hfr]
      | cons a as => simp [hfr, List.getLast?_cons_cons]
    · have hpd : ¬ (decide (hd.position ≤ mp) = true) := by simpa using hp
      rw [show nearestLoop mp (hd :: rest) acc = acc from by simp [nearestLoop, hp]]
      have hnil : rest.filter (fun x => decide (x.position ≤ mp)) = [] := by
        rw [List.filter_eq_nil_iff]
        intro b hb
        have h1 := (List.pairwise_cons.mp hsort).1 b hb
        simp only [decide_eq_true_eq]
        omega
      rw [List.filter_cons, if_neg hpd, hnil]
      simp

theorem findNearestHeading_eq (content : String) (mp : Nat) :
    findNearestHeading content mp = nearestHeadingSpec (headingsOf content) mp := by
  unfold findNearestHeading nearestHeadingSpec
  rw [nearestLoop_eq mp (headingsOf content) none (headingsOfAux_sorted _ 0)]
  by_cases hf : (headingsOf content).filter (fun hd => decide (hd.position ≤ mp)) = []
  · simp [hf]
  · simp [hf]

/-- C3 (counterexample): `generateSlug` ends in JavaScript `trim()`, which
strips whitespace, not hyphens — stripping `"!!"` from `"!! Hello"` leaves a
leading space that becomes a leading hyphen, so the heading anchor is
`"-hello"`, not the `"hello"` that trimming leading/trailing `-` would give. -/
theorem c3_slug_keeps_edge_hyphens :
    (createSnippet "# !! Hello\nworld" "world" 150).anchor = some "-hello" ∧
    claimedSlug "!! Hello" = "hello" ∧
    generateSlug "!! Hello" ≠ claimedSlug "!! Hello" := by
  refine ⟨rfl, rfl, by decide⟩

/-- C3 (amended): when the term occurs case-insensitively in the original
markdown at first offset `i` and also occurs in the stripped text, the anchor
is the id of the last heading whose line-start offset is ≤ `i`, where ids come
from the code's `generateSlug` (which keeps leading/trailing hyphens, its
final `trim()` stripping only whitespace) and an empty id yields `none`; the
anchor is `none` when the term is absent from the original markdown, and also
when it is absent from the stripped text. -/
theorem createSnippet_anchor_characterization (content searchTerm : String)
    (maxLength : Nat) :
    (∀ i, jsIndexOf (toLowerStr content) (toLowerStr searchTerm) = some i →
      (jsIndexOf (toLowerStr (cleanContent content))
        (toLowerStr searchTerm)).isSome = true →
      (createSnippet content searchTerm maxLength).anchor =
        nearestHeadingSpec (headingsOf content) i) ∧
    (jsIndexOf (toLowerStr content) (toLowerStr searchTerm) = none →
      (createSnippet content searchTerm maxLength).anchor = none) ∧
    (jsIndexOf (toLowerStr (cleanContent content)) (toLowerStr searchTerm) = none →
      (createSnippet content searchTerm maxLength).anchor = none) := by
  refine ⟨?_, ?_, ?_⟩
  · intro i hi hclean
    simp only [createSnippet, hi]
    cases hc : jsIndexOf (toLowerStr (cleanContent content)) (toLowerStr searchTerm) with
    | none => rw [hc] at hclean; cases hclean
    | some j =>
      simp only [hc]
      exact findNearestHeading_eq content i
  · intro hi
    simp only [createSnippet, hi]
    cases hc : jsIndexOf (toLowerStr (cleanContent content)) (toLowerStr searchTerm) with
    | none => simp [hc]
    | some j => simp [hc]
  · intro hc
    simp only [createSnippet, hc]

/-- C3 (witness): the spec's own vector — in `"# A\nfoo\n## B\nbar baz"`,
searching `"baz"` anchors at `"b"`. -/
theorem createSnippet_anchor_witness :
    (createSnippet "# A\nfoo\n## B\nbar baz" "baz" 150).anchor = some "b" := by
  have h := (createSnippet_anchor_characterization "# A\nfoo\n## B\nbar baz" "baz" 150).1
    17 (by rfl) (by rfl)
  rw [h]
  rfl

theorem mem_sortByTitleMatch (q : String) (rs : List SearchResult)
    (r : SearchResult) (h : r ∈ sortByTitleMatch q rs) : r ∈ rs := by
  rcases List.mem_append.mp h with h | h
  · exact List.mem_of_mem_filter h
  · exact List.mem_of_mem_filter h

theorem titlePostsLoop_good (PT AP : List Post) :
    ∀ (ps : List Post) (results : List SearchResult) (seen : List String),
      (∀ p ∈ ps, p ∈ PT ∨ p ∈ AP) →
      (∀ r ∈ results, GoodPost PT AP r) →
      ∀ r ∈ (titlePostsLoop ps (results, seen)).1, GoodPost PT AP r := by
  intro ps
  induction ps with
  | nil => intro results seen _ hres r hr; exact hres r hr
  | cons p rest ih =>
    intro results seen hps hres r hr
    have hps' : ∀ q ∈ rest, q ∈ PT ∨ q ∈ AP :=
      fun q hq => hps q (List.mem_cons_of_mem p hq)
    revert hr
    show r ∈ (if seen.contains p.id = true then titlePostsLoop rest (results, seen)
        else if p.unlisted = true then titlePostsLoop rest (results, p.id :: seen)
        else titlePostsLoop rest (results ++ [mkTitlePostResult p], p.id :: seen)).1 →
      GoodPost PT AP r
    by_cases h1 : seen.contains p.id = true
    · rw [if_pos h1]; exact fun hr => ih results seen hps' hres r hr
    · rw [if_neg h1]
      by_cases h2 : p.unlisted = true
      · rw [if_pos h2]; exact fun hr => ih results _ hps' hres r hr
      · rw [if_neg h2]
        refine fun hr => ih _ _ hps' ?_ r hr
        intro r' hr'
        rcases List.mem_append.mp hr' with hm | hm
        · exact hres r' hm
        · rcases List.mem_singleton.mp hm with rfl
          intro _
          exact ⟨p, hps p (List.mem_cons_self p rest), Bool.eq_false_iff.mpr h2,
            rfl, rfl⟩

theorem titlePagesLoop_good (PT AP : List Post) :
    ∀ (pgs : List Page) (results : List SearchResult) (seen : List String),
      (∀ r ∈ results, GoodPost PT AP r) →
      ∀ r ∈ (titlePagesLoop pgs (results, seen)).1, GoodPost PT AP r := by
  intro pgs
  induction pgs with
  | nil => intro results seen hres r hr; exact hres r hr
  | cons pg rest ih =>
    intro results seen hres r hr
    revert hr
    show r ∈ (if seen.contains pg.id = true then titlePagesLoop rest (results, seen)
        else titlePagesLoop rest (results ++ [mkTitlePageResult pg], pg.id :: seen)).1 →
      GoodPost PT AP r
    by_cases h1 : seen.contains pg.id = true
    · rw [if_pos h1]; exact fun hr => ih results seen hres r hr
    · rw [if_neg h1]
      refine fun hr => ih _ _ ?_ r hr
      intro r' hr'
      rcases List.mem_append.mp hr' with hm | hm
      · exact hres r' hm
      · rcases List.mem_singleton.mp hm with rfl
        intro hk
        simp [mkTitlePageResult] at hk

theorem searchTitleOnly_good (PT : List Post) (pgt : List Page) (AP : List Post)
    (query : String) :
    ∀ r ∈ searchTitleOnly query PT pgt, GoodPost PT AP r := by
  intro r hr
  by_cases hq : jsTrimList query.data = []
  · simp [searchTitleOnly, hq] at hr
  · simp only [searchTitleOnly] at hr
    rw [if_neg hq] at hr
    have hr1 := mem_sortByTitleMatch _ _ r
      (List.Sublist.mem hr (List.take_sublist _ _))
    rcases List.mem_append.mp hr1 with hm | hm
    · exact titlePostsLoop_good PT AP PT [] [] (fun p hp => Or.inl hp)
        (fun r' hr' => absurd hr' (List.not_mem_nil r')) r hm
    · exact titlePagesLoop_good PT AP pgt [] []
        (fun r' hr' => absurd hr' (List.not_mem_nil r')) r hm

theorem contentPostLoop_good (PT AP : List Post) (query queryLower : String)
    (terms : List String) (lookupPost : String → Option Post)
    (ipfs : String → Option String) :
    ∀ (ps : List Post) (results : List SearchResult) (added : List String),
      (∀ p ∈ ps, p ∈ PT ∨ p ∈ AP) →
      (∀ r ∈ results, GoodPost PT AP r) →
      ∀ r ∈ (contentPostLoop query queryLower terms lookupPost ipfs ps
        (results, added)).1, GoodPost PT AP r := by
  intro ps
  induction ps with
  | nil => intro results added _ hres r hr; exact hres r hr
  | cons p rest ih =>
    intro results added hps hres r hr
    have hps' : ∀ q ∈ rest, q ∈ PT ∨ q ∈ AP :=
      fun q hq => hps q (List.mem_cons_of_mem p hq)
    simp only [contentPostLoop] at hr
    split at hr
    · exact ih _ _ hps' hres r hr
    next h1 =>
      split at hr
      next => exact ih _ _ hps' hres r hr
      next fp hfp =>
        split at hr
        · exact ih _ _ hps' hres r hr
        · split at hr
          next => exact ih _ _ hps' hres r hr
          next content hcontent =>
            split at hr
            · refine ih _ _ hps' ?_ r hr
              intro r' hr'
              rcases List.mem_append.mp hr' with hm | hm
              · exact hres r' hm
              · rcases List.mem_singleton.mp hm with rfl
                intro _
                refine ⟨p, hps p (List.mem_cons_self p rest), ?_, rfl, rfl⟩
                simp only [Bool.or_eq_true, not_or] at h1
                exact Bool.eq_false_iff.mpr h1.2
            · exact ih _ _ hps' hres r hr

theorem contentPageLoop_good (PT AP : List Post) (query queryLower : String)
    (terms : List String) (lookupPage : String → Option Page)
    (ipfs : String → Option String) :
    ∀ (pgs : List Page) (results : List SearchResult) (added : List String),
      (∀ r ∈ results, GoodPost PT AP r) →
      ∀ r ∈ (contentPageLoop query queryLower terms lookupPage ipfs pgs
        (results, added)).1, GoodPost PT AP r := by
  intro pgs
  induction pgs with
  | nil => intro results added hres r hr; exact hres r hr
  | cons pg rest ih =>
    intro results added hres r hr
    simp only [contentPageLoop] at hr
    split at hr
    · exact ih _ _ hres r hr
    · split at hr
      next => exact ih _ _ hres r hr
      next fp hfp =>
        split at hr
        · exact ih _ _ hres r hr
        · split at hr
          next => exact ih _ _ hres r hr
          next content hcontent =>
            split at hr
            · refine ih _ _ ?_ r hr
              intro r' hr'
              rcases List.mem_append.mp hr' with hm | hm
              · exact hres r' hm
              · rcases List.mem_singleton.mp hm with rfl
                intro hk
                simp at hk
            · exact ih _ _ hres r hr

theorem take_sortByTitleMatch_split (q : String) (L : List SearchResult) (n : Nat) :
    ∃ ys zs, (sortByTitleMatch q L).take n = ys ++ zs ∧
      (∀ r ∈ ys, titleMatches q r = true) ∧
      (∀ r ∈ zs, titleMatches q r = false) := by
  refine ⟨(L.filter (titleMatches q)).take n,
    (L.filter (fun r => !(titleMatches q r))).take
      (n - (L.filter (titleMatches q)).length), ?_, ?_, ?_⟩
  · rw [sortByTitleMatch, List.take_append_eq_append_take]
  · intro r hr
    exact (List.mem_filter.mp (List.Sublist.mem hr (List.take_sublist _ _))).2
  · intro r hr
    have := (List.mem_filter.mp (List.Sublist.mem hr (List.take_sublist _ _))).2
    simpa using this

/-- C5 (confirmed): keyword search returns at most 15 results; the result
list splits into title-containing matches followed by non-title matches
(the stable two-class sort keeps retrieval order within each class); and a
post-kind result always stems from a non-unlisted post — an `unlisted: true`
post never appears, even if its body contains the term. -/
theorem search_keyword_ranking (query : String) (postsByTitle : List Post)
    (pagesByTitle : List Page) (allPosts : List Post) (allPages : List Page)
    (lookupPost : String → Option Post) (lookupPage : String → Option Page)
    (ipfs : String → Option String) :
    (search query postsByTitle pagesByTitle allPosts allPages lookupPost
      lookupPage ipfs).length ≤ 15 ∧
    (∃ ys zs, search query postsByTitle pagesByTitle allPosts allPages lookupPost
        lookupPage ipfs = ys ++ zs ∧
      (∀ r ∈ ys, titleMatches (toLowerStr query) r = true) ∧
      (∀ r ∈ zs, titleMatches (toLowerStr query) r = false)) ∧
    (∀ r ∈ search query postsByTitle pagesByTitle allPosts allPages lookupPost
        lookupPage ipfs, r.kind = DocKind.post →
      ∃ p, (p ∈ postsByTitle ∨ p ∈ allPosts) ∧ p.unlisted = false ∧
        r.id = p.id ∧ r.title = p.title) := by
  refine ⟨?_, ?_, ?_⟩
  · by_cases hq : jsTrimList query.data = []
    · simp [search, hq]
    · simp only [search]
      rw [if_neg hq]
      simp [List.length_take]
  · by_cases hq : jsTrimList query.data = []
    · exact ⟨[], [], by simp [search, hq], by simp, by simp⟩
    · simp only [search]
      rw [if_neg hq]
      exact take_sortByTitleMatch_split _ _ 15
  · by_cases hq : jsTrimList query.data = []
    · simp [search, hq]
    · intro r hr
      simp only [search] at hr
      rw [if_neg hq] at hr
      have hr1 := mem_sortByTitleMatch _ _ r
        (List.Sublist.mem hr (List.take_sublist _ _))
      exact contentPageLoop_good postsByTitle allPosts query (toLowerStr query)
        (searchTerms query) lookupPage ipfs allPages _ _
        (contentPostLoop_good postsByTitle allPosts query (toLowerStr query)
          (searchTerms query) lookupPost ipfs allPosts _ _
          (fun p hp => Or.inr hp)
          (searchTitleOnly_good postsByTitle pagesByTitle allPosts query))
        r hr1

/-- C5 (witness): in the spec's scenario ("cach" against "Intro to Caching"
plus a content-only match plus an unlisted post whose body contains the
term), the content-only result is traced back to a non-unlisted source
post. -/
theorem search_keyword_ranking_witness :
    ∃ p, (p ∈ [c5PostA] ∨ p ∈ [c5PostA, c5PostB, c5PostU]) ∧
      p.unlisted = false ∧ c5ResultB.id = p.id ∧ c5ResultB.title = p.title :=
  (search_keyword_ranking "cach" [c5PostA] [] [c5PostA, c5PostB, c5PostU] []
    c5Lookup (fun _ => none) c5Ipfs).2.2 c5ResultB (by decide) (by decide)

/-- C6 (confirmed): with the provider credential absent, `semanticSearch`
returns the empty list (an `ok []`, not an error) for every query and every
oracle, and `isSemanticSearchAvailable()` returns `false`. -/
theorem semanticSearch_no_credential (query : String) (respOk : Bool)
    (respBody : Json) (postResults pageResults : List (String × Rat))
    (posts : List SemPost) (pages : List SemPage) :
    semanticSearch none query respOk respBody postResults pageResults posts pages =
      Except.ok [] ∧
    isSemanticSearchAvailable none = false := by
  constructor
  · by_cases hq : jsTrimList query.data = []
    · simp [semanticSearch, hq]
    · simp [semanticSearch, hq, jsTruthyStr]
  · rfl

/-- C7 (counterexample): a provider body `["oops"]` — a non-numeric
singleton, certainly not a vector of the model's fixed dimensionality — is
accepted by `generateEmbedding` and returned as the embedding, and the
`semanticSearch` unwrap accepts it equally. -/
theorem c7_nonnumeric_accepted :
    generateEmbedding (some "key") "text"
        (fun _ => (true, Json.arr [Json.str "oops"], "")) =
      Except.ok [Json.str "oops"] ∧
    isNumericVector [Json.str "oops"] = false ∧
    extractQueryEmbedding (Json.arr [Json.str "oops"]) =
      Except.ok (some [Json.str "oops"]) := by
  refine ⟨rfl, rfl, rfl⟩

/-- C7 (amended): with a truthy credential and an ok provider response, the
response is accepted exactly when its parsed body is a non-empty JSON
array, in which case that array is returned verbatim; neither the element
types nor the dimensionality are validated. -/
theorem generateEmbedding_validation (apiKey : Option String) (text : String)
    (provider : String → Bool × Json × String)
    (hkey : jsTruthyStr apiKey = true)
    (hok : (provider (String.mk (jsSlice text.data 0 2000))).1 = true) :
    ((∃ v, generateEmbedding apiKey text provider = Except.ok v) ↔
      (∃ l, (provider (String.mk (jsSlice text.data 0 2000))).2.1 = Json.arr l ∧
        l ≠ [])) ∧
    (∀ l, (provider (String.mk (jsSlice text.data 0 2000))).2.1 = Json.arr l →
      l ≠ [] → generateEmbedding apiKey text provider = Except.ok l) := by
  have hgen : generateEmbedding apiKey text provider =
      (match (provider (String.mk (jsSlice text.data 0 2000))).2.1 with
      | Json.arr l =>
        if l.isEmpty then
          Except.error "Invalid embedding response from Hugging Face API"
        else Except.ok l
      | _ => Except.error "Invalid embedding response from Hugging Face API") := by
    simp only [generateEmbedding, hkey]
    rcases hp : provider (String.mk (jsSlice text.data 0 2000)) with ⟨ok, body, errText⟩
    rw [hp] at hok
    simp only [] at hok
    subst hok
    simp
  have hne_isEmpty : ∀ l : List Json, l ≠ [] → l.isEmpty = false := by
    intro l hnil
    cases l with
    | nil => exact absurd rfl hnil
    | cons a as => rfl
  refine ⟨⟨?_, ?_⟩, ?_⟩
  · rintro ⟨v, hv⟩
    rw [hgen] at hv
    cases hb : (provider (String.mk (jsSlice text.data 0 2000))).2.1 with
    | arr l =>
      rw [hb] at hv
      refine ⟨l, rfl, ?_⟩
      intro hnil
      subst hnil
      simp at hv
    | null => rw [hb] at hv; cases hv
    | bool b => rw [hb] at hv; cases hv
    | num q => rw [hb] at hv; cases hv
    | str s => rw [hb] at hv; cases hv
    | obj fs => rw [hb] at hv; cases hv
  · rintro ⟨l, hl, hnil⟩
    refine ⟨l, ?_⟩
    rw [hgen, hl]
    simp [hne_isEmpty l hnil]
  · intro l hl hnil
    rw [hgen, hl]
    simp [hne_isEmpty l hnil]

/-- C7 (witness): a non-empty array body is accepted and returned
verbatim. -/
theorem generateEmbedding_validation_witness :
    generateEmbedding (some "k") "text"
        (fun _ => (true, Json.arr [Json.num 1], "")) =
      Except.ok [Json.num 1] :=
  (generateEmbedding_validation (some "k") "text"
    (fun _ => (true, Json.arr [Json.num 1], "")) rfl rfl).2
    [Json.num 1] rfl (by simp)

theorem map_id_of_mem {α : Type} (f : α → α) :
    ∀ (l : List α), (∀ a ∈ l, f a = a) → l.map f = l := by
  intro l
  induction l with
  | nil => intro _; rfl
  | cons a as ih =>
    intro h
    rw [List.map_cons, h a (List.mem_cons_self a as),
      ih (fun b hb => h b (List.mem_cons_of_mem a hb))]

theorem backfill_preserve (fetchO : DbPost → Option String)
    (embedO : String → Except String (List Int)) :
    ∀ (ps : List DbPost) (db : List DbPost) (n : Nat) (q : DbPost),
      q ∈ db → (∀ p ∈ ps, q.id ≠ p.id) →
      q ∈ (ps.foldl (backfillStep fetchO embedO) (db, n)).1 := by
  intro ps
  induction ps with
  | nil => intro db n q hq _; exact hq
  | cons p rest ih =>
    intro db n q hq hid
    rw [List.foldl_cons]
    have hid' : ∀ r ∈ rest, q.id ≠ r.id :=
      fun r hr => hid r (List.mem_cons_of_mem p hr)
    cases he : embedO (textForPost fetchO p) with
    | ok v =>
      have hstep : backfillStep fetchO embedO (db, n) p =
          (savePostEmbedding db p.id v, n + 1) := by
        simp [backfillStep, he]
      rw [hstep]
      exact ih _ _ q
        (List.mem_map.mpr ⟨q, hq, if_neg (hid p (List.mem_cons_self p rest))⟩) hid'
    | error e =>
      have hstep : backfillStep fetchO embedO (db, n) p = (db, n) := by
        simp [backfillStep, he]
      rw [hstep]
      exact ih _ _ q hq hid'

theorem backfill_saves (fetchO : DbPost → Option String)
    (embedO : String → Except String (List Int)) :
    ∀ (ps : List DbPost) (db : List DbPost) (n : Nat) (p : DbPost) (v : List Int),
      p ∈ ps → (ps.map (fun x => x.id)).Nodup → p ∈ db →
      embedO (textForPost fetchO p) = Except.ok v →
      { p with embedding := some v } ∈
        (ps.foldl (backfillStep fetchO embedO) (db, n)).1 := by
  intro ps
  induction ps with
  | nil => intro db n p v hp; cases hp
  | cons p0 rest ih =>
    intro db n p v hp hnd hpdb he
    rw [List.foldl_cons]
    rw [List.map_cons, List.nodup_cons] at hnd
    rcases List.mem_cons.mp hp with rfl | hp
    · have hstep : backfillStep fetchO embedO (db, n) p =
          (savePostEmbedding db p.id v, n + 1) := by
        simp [backfillStep, he]
      rw [hstep]
      refine backfill_preserve fetchO embedO rest _ _ _ ?_ ?_
      · exact List.mem_map.mpr ⟨p, hpdb, if_pos rfl⟩
      · intro r hr hcontra
        exact hnd.1 (List.mem_map.mpr ⟨r, hr, hcontra.symm⟩)
    · cases he0 : embedO (textForPost fetchO p0) with
      | ok v0 =>
        have hstep : backfillStep fetchO embedO (db, n) p0 =
            (savePostEmbedding db p0.id v0, n + 1) := by
          simp [backfillStep, he0]
        rw [hstep]
        refine ih _ _ p v hp hnd.2 ?_ he
        refine List.mem_map.mpr ⟨p, hpdb, if_neg ?_⟩
        intro hcontra
        exact hnd.1 (List.mem_map.mpr ⟨p, hp, hcontra⟩)
      | error e0 =>
        have hstep : backfillStep fetchO embedO (db, n) p0 = (db, n) := by
          simp [backfillStep, he0]
        rw [hstep]
        exact ih _ _ p v hp hnd.2 hpdb he

theorem filter_savePostEmbedding (db : List DbPost) (id : String) (v : List Int) :
    (savePostEmbedding db id v).filter condB =
      (db.filter condB).filter (fun q => !(q.id == id)) := by
  unfold savePostEmbedding
  rw [List.filter_map]
  have h1 : ∀ q ∈ db,
      (condB ∘ (fun q => if q.id = id then { q with embedding := some v } else q)) q =
        ((fun q : DbPost => !(q.id == id)) q && condB q) := by
    intro q _
    by_cases hq : q.id = id
    · simp [Function.comp, hq, condB]
    · simp [Function.comp, hq, condB]
  rw [List.filter_congr h1, ← List.filter_filter]
  refine map_id_of_mem _ _ ?_
  intro q hq
  refine if_neg ?_
  intro hc
  have := (List.mem_filter.mp hq).2
  simp [hc] at this

theorem backfill_filter_char (fetchO : DbPost → Option String)
    (embedO : String → Except String (List Int)) :
    ∀ (ps : List DbPost) (db : List DbPost) (n : Nat),
      ((ps.foldl (backfillStep fetchO embedO) (db, n)).1).filter condB =
        (db.filter condB).filter (notSaved fetchO embedO ps) := by
  intro ps
  induction ps with
  | nil =>
    intro db n
    simp [notSaved]
  | cons p rest ih =>
    intro db n
    rw [List.foldl_cons]
    cases he : embedO (textForPost fetchO p) with
    | ok v =>
      have hstep : backfillStep fetchO embedO (db, n) p =
          (savePostEmbedding db p.id v, n + 1) := by
        simp [backfillStep, he]
      rw [hstep, ih, filter_savePostEmbedding, List.filter_filter]
      refine List.filter_congr ?_
      intro q _
      simp only [notSaved, List.any_cons, successB, he, Bool.true_and, Bool.not_or]
      rw [Bool.and_comm]
    | error e =>
      have hstep : backfillStep fetchO embedO (db, n) p = (db, n) := by
        simp [backfillStep, he]
      rw [hstep, ih]
      refine List.filter_congr ?_
      intro q _
      simp only [notSaved, List.any_cons, successB, he, Bool.false_and, Bool.false_or]

theorem mem_take_succ_of_mem_take {α : Type} :
    ∀ (l : List α) (m : Nat) (a : α), a ∈ l.take m → a ∈ l.take (m + 1) := by
  intro l
  induction l with
  | nil => intro m a h; simp at h
  | cons x xs ih =>
    intro m a h
    cases m with
    | zero => simp at h
    | succ k =>
      rw [List.take_succ_cons] at h
      rw [List.take_succ_cons]
      rcases List.mem_cons.mp h with rfl | h
      · exact List.mem_cons_self _ _
      · exact List.mem_cons_of_mem _ (ih k a h)

theorem mem_take_filter {α : Type} (pred : α → Bool) :
    ∀ (l : List α) (n : Nat) (a : α),
      a ∈ l.take n → pred a = true → a ∈ (l.filter pred).take n := by
  intro l
  induction l with
  | nil => intro n a h _; simp at h
  | cons x xs ih =>
    intro n a h hp
    cases n with
    | zero => simp at h
    | succ m =>
      rw [List.take_succ_cons] at h
      rcases List.mem_cons.mp h with rfl | h
      · rw [List.filter_cons, if_pos hp, List.take_succ_cons]
        exact List.mem_cons_self _ _
      · by_cases hx : pred x = true
        · rw [List.filter_cons, if_pos hx, List.take_succ_cons]
          exact List.mem_cons_of_mem _ (ih m a h hp)
        · rw [List.filter_cons, if_neg hx]
          exact mem_take_succ_of_mem_take _ m a (ih m a h hp)

theorem getPostsWithoutEmbeddings_eq (db : List DbPost) (limit : Nat) :
    getPostsWithoutEmbeddings db limit = (db.filter condB).take limit := by
  unfold getPostsWithoutEmbeddings
  rw [List.filter_filter]
  congr 1
  refine List.filter_congr ?_
  intro q _
  exact Bool.and_comm _ _

theorem batch_sublist (db : List DbPost) (limit : Nat) :
    (getPostsWithoutEmbeddings db limit).Sublist db :=
  (List.take_sublist _ _).trans
    ((List.filter_sublist _).trans (List.filter_sublist _))

/-- C8 (confirmed): over one backfill batch (at most 10 published,
non-unlisted posts lacking embeddings), a per-post provider failure is
isolated — every other batch member whose provider call succeeds still gets
its embedding persisted — and a post whose provider call failed still lacks
an embedding afterwards and is selected again by the next run's query.
(Fetch failures are not failures of the attempt: the code embeds the title
alone, which the arbitrary `fetchO` oracle covers.) -/
theorem generatePostEmbeddings_isolated (db : List DbPost)
    (fetchO : DbPost → Option String)
    (embedO : String → Except String (List Int))
    (hnd : (db.map (fun p => p.id)).Nodup) :
    (∀ p ∈ getPostsWithoutEmbeddings db 10, ∀ v,
      embedO (textForPost fetchO p) = Except.ok v →
      { p with embedding := some v } ∈ (generatePostEmbeddings db fetchO embedO).1) ∧
    (∀ p ∈ getPostsWithoutEmbeddings db 10, ∀ e,
      embedO (textForPost fetchO p) = Except.error e →
      p ∈ getPostsWithoutEmbeddings (generatePostEmbeddings db fetchO embedO).1 10) := by
  have hsub := batch_sublist db 10
  have hndb : ((getPostsWithoutEmbeddings db 10).map (fun p => p.id)).Nodup :=
    List.Nodup.sublist (hsub.map _) hnd
  constructor
  · intro p hp v he
    exact backfill_saves fetchO embedO _ db 0 p v hp hndb
      (List.Sublist.mem hp hsub) he
  · intro p hp e he
    have hps : successB fetchO embedO p = false := by simp [successB, he]
    have hall : ∀ p' ∈ getPostsWithoutEmbeddings db 10,
        (successB fetchO embedO p' && (p.id == p'.id)) = false := by
      intro p' hp'
      by_cases hid : p.id = p'.id
      · have hpp : p = p' := List.inj_on_of_nodup_map hndb hp hp' hid
        rw [← hpp, hps]
        rfl
      · simp [hid]
    have hnotsaved :
        notSaved fetchO embedO (getPostsWithoutEmbeddings db 10) p = true := by
      unfold notSaved
      rw [List.any_eq_false.mpr ?_]
      · rfl
      · intro p' hp'
        simp [hall p' hp']
    have htake : p ∈ ((db.filter condB).filter
        (notSaved fetchO embedO (getPostsWithoutEmbeddings db 10))).take 10 := by
      have hp' := hp
      rw [getPostsWithoutEmbeddings_eq] at hp'
      exact mem_take_filter _ _ 10 p hp' hnotsaved
    rw [getPostsWithoutEmbeddings_eq]
    unfold generatePostEmbeddings
    rw [backfill_filter_char]
    exact htake

/-- C8 (witness): in a three-post batch where the first post's provider
call fails and the other two lose their IPFS fetch (title-only embedding),
the second post's embedding is persisted and the first remains selected by
the next run. -/
theorem generatePostEmbeddings_isolated_witness :
    { c8P2 with embedding := some [1, 2] } ∈
      (generatePostEmbeddings [c8P1, c8P2, c8P3] c8Fetch c8Embed).1 ∧
    c8P1 ∈ getPostsWithoutEmbeddings
      (generatePostEmbeddings [c8P1, c8P2, c8P3] c8Fetch c8Embed).1 10 :=
  ⟨(generatePostEmbeddings_isolated [c8P1, c8P2, c8P3] c8Fetch c8Embed
      (by decide)).1 c8P2 (by decide) [1, 2] (by rfl),
   (generatePostEmbeddings_isolated [c8P1, c8P2, c8P3] c8Fetch c8Embed
      (by decide)).2 c8P1 (by decide) "rate limited" (by rfl)⟩

end MarkdownSite
